import Mathlib

/-!
# ut4-elim-stats-collector: `pkg/collector/elim_stats.go`

A shallow embedding of `CollectElimStats`, `buildRanks` and `createObject`.

* Go values of static type `any` are the inductive `Value`; a Go call that can
  return `(v, nil)`, return `(nil, err)` or panic is a `Res`.
* The libraries the file calls (net/http, x/net/html, go-tree-sitter, strconv)
  are not part of the repository.  What they return is supplied through `Lib`;
  the data they hand back (`HtmlNode`, `Node`, `QueryMatch`) is modelled as
  plain trees and lists.
* Loops are recursive functions over the list they range over; the two
  unbounded recursions (`createObject`, the stack loop) carry a step budget
  and are shown never to exhaust the budget their wrappers supply.
-/

namespace Collector

/-! ## Go values -/

/-- A `float64`, kept as its IEEE-754 bit pattern. -/
structure Float64 where
  bits : Nat
deriving DecidableEq, Repr

/-- NaN: exponent all ones, mantissa non-zero. -/
def Float64.isNaN (f : Float64) : Bool :=
  decide ((f.bits / 2 ^ 52) % 2 ^ 11 = 2047) && decide (f.bits % 2 ^ 52 ≠ 0)

/-- Plus or minus zero: every bit below the sign bit is clear. -/
def Float64.isZero (f : Float64) : Bool :=
  decide (f.bits % 2 ^ 63 = 0)

/-- Go `==` on two `float64`: NaN equals nothing, the two zeros are equal. -/
def Float64.goEq (a b : Float64) : Bool :=
  !a.isNaN && !b.isNaN && (decide (a.bits = b.bits) || (a.isZero && b.isZero))

/-- The dynamic values `createObject` builds: `nil`, `string`, `float64`,
`[]any` and `map[any]any` (entries in the order their keys were first
inserted; Go itself gives a map no order). -/
inductive Value where
  | null
  | str (s : String)
  | num (f : Float64)
  | arr (elems : List Value)
  | obj (entries : List (Value × Value))

/-- The two causes inside a `*strconv.NumError`: `strconv.ErrSyntax` and
`strconv.ErrRange`. -/
inductive NumErr where
  | invalid
  | range
deriving DecidableEq, Repr

/-- Whether Go can hash the value as a map key: slices and maps cannot be. -/
def Value.hashable : Value → Bool
  | .arr _ => false
  | .obj _ => false
  | _ => true

/-- Go `==` on two interface values with hashable dynamic types: equal dynamic
types and equal values. -/
def keyEq : Value → Value → Bool
  | .null, .null => true
  | .str a, .str b => decide (a = b)
  | .num a, .num b => a.goEq b
  | _, _ => false

/-- Go `error` values that can reach the caller of `CollectElimStats`. -/
inductive GoError where
  | ErrRanksNotFound
  | ErrUnexpectedType
  | numError (num : String) (cause : NumErr)
  | external (msg : String)
deriving DecidableEq, Repr

/-- Outcome of a Go call: `val v` is `return v, nil`; `err e` is
`return nil, e`; `panicked` is a run-time panic; `outOfFuel` is the embedding's
step budget running out (no Go outcome). -/
inductive Res (α : Type) where
  | val (v : α)
  | err (e : GoError)
  | panicked
  | outOfFuel

/-! ## `strconv.ParseFloat` -/

/-- The quotient `a / b` rounded to the nearest natural number, a tie going to
the even neighbour. -/
def divRoundEven (a b : Nat) : Nat :=
  if 2 * (a % b) > b ∨ (2 * (a % b) = b ∧ (a / b) % 2 = 1) then a / b + 1 else a / b

/-- Number of binary digits of `n`, counted up to the budget. -/
def bitLenAux : Nat → Nat → Nat
  | 0, _ => 0
  | fuel + 1, n => if n = 0 then 0 else bitLenAux fuel (n / 2) + 1

/-- Number of binary digits of `n`, or 2200 when there are more: any number
that long is far beyond the float64 range. -/
def bitLen (n : Nat) : Nat :=
  bitLenAux 2200 n

/-- The float64 nearest to the non-negative fraction `a / b`, ties to even, as
a bit pattern; a range error when the nearest value is beyond the largest
float64.  The fraction is counted in units of the smallest subnormal,
`2^-1074`; `s` is the exponent field less one for a normal result and `0` for
a subnormal one, so that the bits are `s * 2^52` plus the rounded mantissa. -/
def roundFloat64 (a b : Nat) : Except NumErr Float64 :=
  let s := bitLen ((a <<< 1074) / b) - 53
  let bits := (s <<< 52) + divRoundEven (a <<< 1074) (b <<< s)
  if bits < (2047 <<< 52) then .ok ⟨bits⟩ else .error .range

/-- The loop of `underscoreOK` in strconv: an underscore must follow a digit
and be followed by a digit.  `saw` is `'0'` after a digit, `'_'` after an
underscore, `'!'` after any other character and `'^'` at the start. -/
def underscoreLoop : Char → List Char → Bool
  | saw, [] => saw != '_'
  | saw, c :: rest =>
    if c.isDigit then underscoreLoop '0' rest
    else if c = '_' then (if saw != '0' then false else underscoreLoop '_' rest)
    else if saw = '_' then false
    else underscoreLoop '!' rest

/-- Whether the underscores of a decimal text are digit separators. -/
def underscoreOK (s : List Char) : Bool :=
  match s with
  | '-' :: rest => underscoreLoop '^' rest
  | '+' :: rest => underscoreLoop '^' rest
  | _ => underscoreLoop '^' s

/-- The number a list of decimal digits spells. -/
def digitsValue (ds : List Char) : Nat :=
  ds.foldl (fun acc c => 10 * acc + (c.toNat - 48)) 0

/-- The exponent after the `e`: an optional sign and at least one digit up to
the end of the text; the result is whether it is negative and its size. -/
def readExponent (text : List Char) : Option (Bool × Nat) :=
  let negative := match text with
    | '-' :: _ => true
    | _ => false
  let digits := match text with
    | '-' :: rest => rest
    | '+' :: rest => rest
    | _ => text
  if digits ≠ [] ∧ digits.all Char.isDigit then some (negative, digitsValue digits) else none

/-- An unsigned decimal text without underscores, as a fraction
`mantissa * 10^up / 10^down`: digits with an optional point, at least one
digit, and an optional exponent; `none` when the text has another form. -/
def readDecimal (text : List Char) : Option (Nat × Nat × Nat) :=
  let whole := text.takeWhile Char.isDigit
  let afterWhole := text.dropWhile Char.isDigit
  let fraction := match afterWhole with
    | '.' :: rest => rest.takeWhile Char.isDigit
    | _ => []
  let afterFraction := match afterWhole with
    | '.' :: rest => rest.dropWhile Char.isDigit
    | _ => afterWhole
  if whole = [] ∧ fraction = [] then none
  else
    match afterFraction with
    | [] => some (digitsValue (whole ++ fraction), 0, fraction.length)
    | c :: rest =>
      if c = 'e' ∨ c = 'E' then
        match readExponent rest with
        | some (true, e) => some (digitsValue (whole ++ fraction), 0, fraction.length + e)
        | some (false, e) => some (digitsValue (whole ++ fraction), e, fraction.length)
        | none => none
      else none

/-- Modelled from the spec: `strconv.ParseFloat(s, 64)` on base-10 literals
(spec 4.3: parse the text as a base-10 floating point literal, fail if it is
not a valid numeric literal; spec 3: a 64-bit floating point value parsed from
the decimal text).  The text is an optional sign, decimal digits with an
optional point and an optional decimal exponent, with underscores only between
digits; any other text is a syntax error.  The value is the nearest float64,
ties to even, and a range error when that is beyond the largest float64.
Hexadecimal floats and the words for infinity and not-a-number, which the
library also reads, are no text of a `number` node and count as syntax errors
here. -/
def strconv.ParseFloat (s : String) : Except NumErr Float64 :=
  if !underscoreOK s.data then .error .invalid
  else
    let body := s.data.filter (fun c => c != '_')
    let negative := match body with
      | '-' :: _ => true
      | _ => false
    let unsigned := match body with
      | '-' :: rest => rest
      | '+' :: rest => rest
      | _ => body
    match readDecimal unsigned with
    | none => .error .invalid
    | some (mantissa, up, down) =>
      match roundFloat64 (mantissa * 10 ^ up) (10 ^ down) with
      | .ok f => .ok ⟨if negative then f.bits + (1 <<< 63) else f.bits⟩
      | .error e => .error e

/-! ## Syntax trees (go-tree-sitter) -/

/-- A tree-sitter node: its type name, its byte range in the UTF-8 source,
whether it is a named node, the field name it carries inside its parent, and its children
in source order. -/
inductive Node where
  | mk (type : String) (startByte endByte : Nat) (named : Bool)
      (field : Option String) (children : List Node)

def Node.Type : Node → String
  | .mk t _ _ _ _ _ => t

def Node.StartByte : Node → Nat
  | .mk _ s _ _ _ _ => s

def Node.EndByte : Node → Nat
  | .mk _ _ e _ _ _ => e

def Node.IsNamed : Node → Bool
  | .mk _ _ _ n _ _ => n

def Node.field : Node → Option String
  | .mk _ _ _ _ f _ => f

def Node.children : Node → List Node
  | .mk _ _ _ _ _ cs => cs

/-- The named children, which `NamedChildCount` counts and `NamedChild(i)`
indexes. -/
def Node.namedChildren (n : Node) : List Node :=
  n.children.filter Node.IsNamed

def Node.NamedChildCount (n : Node) : Nat :=
  n.namedChildren.length

def Node.NamedChild (n : Node) (i : Nat) : Option Node :=
  n.namedChildren[i]?

/-- The first child carrying the field name, `nil` (here `none`) when there is
none. -/
def Node.ChildByFieldName (n : Node) (name : String) : Option Node :=
  n.children.find? (fun c => decide (c.field = some name))

/-- The text `string(source[StartByte:EndByte])`, where `source` is
`[]byte(script)`: `StartByte` and `EndByte` are byte offsets into the UTF-8
encoding of the script, and `String.extract` cuts between byte positions.  The
ranges the parser gives to nodes begin and end between characters. -/
def Node.Content (n : Node) (source : String) : String :=
  source.extract ⟨n.StartByte⟩ ⟨n.EndByte⟩

mutual
/-- Number of levels of the tree below and including the node. -/
def Node.height : Node → Nat
  | .mk _ _ _ _ _ cs => heightList cs + 1
/-- Largest height among a list of nodes. -/
def heightList : List Node → Nat
  | [] => 0
  | c :: cs => max c.height (heightList cs)
end

/-- One capture of a query match: the capture's id in the query and the node
bound to it. -/
structure QueryCapture where
  Index : Nat
  Node : Node

/-- A query match: its captures, in capture order. -/
structure QueryMatch where
  Captures : List QueryCapture

/-! ## DOM trees (x/net/html) -/

inductive NodeType where
  | ErrorNode
  | TextNode
  | DocumentNode
  | ElementNode
  | CommentNode
  | DoctypeNode
  | RawNode
deriving DecidableEq, Repr

/-- An `html.Node`: the sibling chain from `FirstChild` to `LastChild` is the
list `children`. -/
inductive HtmlNode where
  | mk (type : NodeType) (data : String) (children : List HtmlNode)

def HtmlNode.Type : HtmlNode → NodeType
  | .mk t _ _ => t

def HtmlNode.Data : HtmlNode → String
  | .mk _ d _ => d

def HtmlNode.children : HtmlNode → List HtmlNode
  | .mk _ _ cs => cs

mutual
/-- Number of nodes of the tree. -/
def HtmlNode.size : HtmlNode → Nat
  | .mk _ _ cs => sizeList cs + 1
/-- Number of nodes of a forest. -/
def sizeList : List HtmlNode → Nat
  | [] => 0
  | c :: cs => c.size + sizeList cs
end

/-! ## The libraries -/

/-- What the calls into libraries return.
* `NewRequest`, `Do`: `http.NewRequest` and `client.Do` (the response body);
* `HtmlParse`: `html.Parse`;
* `NewQuery`: whether `sitter.NewQuery` accepts the pattern;
* `ParseCtx`: `parser.ParseCtx` followed by `tree.RootNode()`;
* `NextMatch`: the matches that successive `qc.NextMatch()` calls yield after
  `qc.Exec(q, root)`, in that order, before predicates are applied;
* `ParseFloat`: `strconv.ParseFloat(s, 64)`. -/
structure Lib where
  NewRequest : String → String → Except GoError (String × String)
  Do : String × String → Except GoError String
  HtmlParse : String → Except GoError HtmlNode
  NewQuery : String → Except GoError Unit
  ParseCtx : String → Except GoError Node
  NextMatch : Node → List QueryMatch
  ParseFloat : String → Except NumErr Float64

/-! ## `createObject` (lines 123-174) -/

/-- The assignment `o[key] = value` on a map whose key is hashable: an entry
whose key is equal (Go `==`) is overwritten, key included; otherwise a new
entry is added. -/
def mapUpdate : List (Value × Value) → Value → Value → List (Value × Value)
  | [], key, value => [(key, value)]
  | (k, v) :: rest, key, value =>
    if keyEq k key then (key, value) :: rest else (k, v) :: mapUpdate rest key value

/-- The statement `o[key] = value`.  Hashing a key whose dynamic type is a
slice or a map panics; `none` stands for that panic. -/
def mapassign (o : List (Value × Value)) (key value : Value) : Option (List (Value × Value)) :=
  if key.hashable then some (mapUpdate o key value) else none

/-- The index expression `o[key]` with the comma-ok form. -/
def mapaccess : List (Value × Value) → Value → Option Value
  | [], _ => none
  | (k, v) :: rest, key => if keyEq k key then some v else mapaccess rest key

/-- The loop of the `array` case (lines 128-136) over the named children still
to visit, with the slice `a` built so far, followed by `return a, nil`. -/
def arrayLoop (createObject : Option Node → Res Value) : List Node → List Value → Res Value
  | [], a => .val (.arr a)
  | child :: rest, a =>
    match createObject (some child) with
    | .val value => arrayLoop createObject rest (a ++ [value])
    | .err e => .err e
    | .panicked => .panicked
    | .outOfFuel => .outOfFuel

/-- The loop of the `object` case (lines 143-157) over the named children still
to visit, with the map `o` built so far, followed by `return o, nil`. -/
def objectLoop (createObject : Option Node → Res Value) :
    List Node → List (Value × Value) → Res Value
  | [], o => .val (.obj o)
  | child :: rest, o =>
    match createObject (child.ChildByFieldName "key") with
    | .val key =>
      match createObject (child.ChildByFieldName "value") with
      | .val value =>
        match mapassign o key value with
        | some o' => objectLoop createObject rest o'
        | none => .panicked
      | .err e => .err e
      | .panicked => .panicked
      | .outOfFuel => .outOfFuel
    | .err e => .err e
    | .panicked => .panicked
    | .outOfFuel => .outOfFuel

/-- The body of `createObject`, with a budget for the depth of recursion.
`node.Type()` on a nil node dereferences nil and panics. -/
def createObjectFuel (lib : Lib) (source : String) : Nat → Option Node → Res Value
  | 0, _ => .outOfFuel
  | _ + 1, none => .panicked
  | fuel + 1, some node =>
    if node.Type = "array" then
      arrayLoop (createObjectFuel lib source fuel) node.namedChildren []
    else if node.Type = "object" then
      objectLoop (createObjectFuel lib source fuel) node.namedChildren []
    else if node.Type = "string" then
      .val (.str (node.Content source))
    else if node.Type = "number" then
      match lib.ParseFloat (node.Content source) with
      | .error cause => .err (.numError (node.Content source) cause)
      | .ok numeric => .val (.num numeric)
    else
      .val .null

/-- Height of the tree under a possibly nil node. -/
def heightOpt : Option Node → Nat
  | none => 0
  | some n => n.height

/-- Go `createObject(node, source)`: the budget is one more than the height of
the tree, which the recursion never exceeds. -/
def createObject (lib : Lib) (node : Option Node) (source : String) : Res Value :=
  createObjectFuel lib source (heightOpt node + 1) node

/-- Go `buildRanks(node, source)` (lines 119-121). -/
def buildRanks (lib : Lib) (node : Option Node) (source : String) : Res Value :=
  createObject lib node source

/-! ## The query (lines 63-70) and the search loop (lines 78-114) -/

/-- The pattern compiled by `sitter.NewQuery`. -/
def query : String :=
  "\n\t(\n\t\t(variable_declarator\n\t\t\tname: (identifier) @var-name\n\t\t\tvalue: (array) @var-value)\n\t\t(#eq? @var-name \"ranks\")\n\t)\n\t"

/-- Tokens of the query language: parentheses, bare words and quoted strings. -/
inductive QToken where
  | lparen
  | rparen
  | atom (s : List Char)
  | str (s : List Char)

/-- State of the tokenizer: between tokens, inside a bare word, inside a quoted
string. -/
inductive LexState where
  | idle
  | inAtom (acc : List Char)
  | inString (acc : List Char)

/-- Modelled from the spec: the tokens of a query text (spec section 6, the
structural-pattern-query capability).  White space separates tokens. -/
def lexQuery : LexState → List Char → List QToken
  | .idle, [] => []
  | .inAtom acc, [] => [.atom acc.reverse]
  | .inString _, [] => []
  | .idle, c :: cs =>
    if c = '(' then .lparen :: lexQuery .idle cs
    else if c = ')' then .rparen :: lexQuery .idle cs
    else if c = '"' then lexQuery (.inString []) cs
    else if c.isWhitespace then lexQuery .idle cs
    else lexQuery (.inAtom [c]) cs
  | .inAtom acc, c :: cs =>
    if c = '(' then .atom acc.reverse :: .lparen :: lexQuery .idle cs
    else if c = ')' then .atom acc.reverse :: .rparen :: lexQuery .idle cs
    else if c.isWhitespace then .atom acc.reverse :: lexQuery .idle cs
    else lexQuery (.inAtom (c :: acc)) cs
  | .inString acc, c :: cs =>
    if c = '"' then .str acc.reverse :: lexQuery .idle cs
    else lexQuery (.inString (c :: acc)) cs

/-- A parenthesized expression of the query language. -/
inductive SExpr where
  | atom (s : List Char)
  | str (s : List Char)
  | list (items : List SExpr)

/-- The expressions a token list spells, `none` when the parentheses do not
pair up: `cur` holds the items of the list being read, last first, `stack` the
enclosing lists. -/
def buildSExpr : List QToken → List SExpr → List (List SExpr) → Option (List SExpr)
  | [], cur, [] => some cur.reverse
  | [], _, _ :: _ => none
  | .lparen :: ts, cur, stack => buildSExpr ts [] (cur :: stack)
  | .rparen :: ts, cur, parent :: stack => buildSExpr ts (.list cur.reverse :: parent) stack
  | .rparen :: _, _, [] => none
  | .atom a :: ts, cur, stack => buildSExpr ts (.atom a :: cur) stack
  | .str a :: ts, cur, stack => buildSExpr ts (.str a :: cur) stack

/-- A node pattern `(type child...)`: the field name the node must carry in its
parent, the node type, the capture bound to the node, and the patterns of its
children. -/
inductive Pattern where
  | node (field : Option String) (type : String) (capture : Option String)
      (children : List Pattern)

/-- A predicate `(#eq? @capture "text")`. -/
inductive Predicate where
  | eq (capture : String) (text : String)

/-- A compiled query: its pattern, its predicates and its capture names, the
position of a name being the capture's id. -/
structure Query where
  pattern : Pattern
  predicates : List Predicate
  captures : List String

/-- The field name of a word `name:`. -/
def fieldName? (a : List Char) : Option String :=
  if a.getLast? = some ':' then some (String.mk a.dropLast) else none

/-- The capture name of a word `@name`. -/
def captureName? : List Char → Option String
  | '@' :: name => some (String.mk name)
  | _ => none

mutual
/-- The pattern an expression `(type child...)` spells, for a pattern that sits
in `field` and is bound to `capture`; the budget bounds the nesting. -/
def toPattern : Nat → Option String → Option String → SExpr → Option Pattern
  | fuel + 1, field, capture, .list (.atom type :: rest) =>
    (toChildren fuel none rest).map (Pattern.node field (String.mk type) capture)
  | _, _, _, _ => none
/-- The child patterns a sequence of `field: (pattern) @capture` items spells;
`field` is the field name read and not yet used. -/
def toChildren : Nat → Option String → List SExpr → Option (List Pattern)
  | _, none, [] => some []
  | _, some _, [] => none
  | fuel + 1, none, .atom a :: rest =>
    match fieldName? a with
    | some f => toChildren fuel (some f) rest
    | none => none
  | fuel + 1, field, .list sub :: .atom c :: rest =>
    match captureName? c with
    | some name =>
      match toPattern fuel field (some name) (.list sub), toChildren fuel none rest with
      | some p, some ps => some (p :: ps)
      | _, _ => none
    | none =>
      match toPattern fuel field none (.list sub), toChildren fuel none (.atom c :: rest) with
      | some p, some ps => some (p :: ps)
      | _, _ => none
  | fuel + 1, field, .list sub :: rest =>
    match toPattern fuel field none (.list sub), toChildren fuel none rest with
    | some p, some ps => some (p :: ps)
    | _, _ => none
  | _, _, _ => none
end

/-- The predicate an expression `(#eq? @capture "text")` spells. -/
def toPredicate : SExpr → Option Predicate
  | .list [.atom name, .atom cap, .str text] =>
    match captureName? cap with
    | some c => if name = ['#', 'e', 'q', '?'] then some (.eq c (String.mk text)) else none
    | none => none
  | _ => none

mutual
/-- The capture names of a pattern in the order they are written. -/
def Pattern.captureNames : Pattern → List String
  | .node _ _ capture children => capture.toList ++ captureNamesList children
/-- The capture names of a list of patterns. -/
def captureNamesList : List Pattern → List String
  | [] => []
  | p :: ps => p.captureNames ++ captureNamesList ps
end

/-- Modelled from the spec: `sitter.NewQuery` on the query forms the source
uses (spec section 6: a pattern binding named captures to nodes, filtered by
textual-equality predicates): either one node pattern, or a group
`((pattern) (#eq? @capture "text")...)` of a node pattern and its predicates.
Children are given by field name.  `none` is the error return. -/
def sitter.NewQuery (text : String) : Option Query :=
  match buildSExpr (lexQuery .idle text.data) [] [] with
  | some [.list (.list p :: preds)] =>
    match toPattern text.length none none (.list p), preds.mapM toPredicate with
    | some pat, some ps => some { pattern := pat, predicates := ps, captures := pat.captureNames }
    | _, _ => none
  | some [.list (.atom type :: rest)] =>
    match toPattern text.length none none (.list (.atom type :: rest)) with
    | some pat => some { pattern := pat, predicates := [], captures := pat.captureNames }
    | none => none
  | _ => none

/-- The compiled query `q` of line 72; the function returns before `q` is used
when compilation fails. -/
def compiledQuery : Query :=
  match sitter.NewQuery query with
  | some q => q
  | none => { pattern := .node none "" none [], predicates := [], captures := [] }

/-- Go `q.CaptureNameForId(id)`: the capture name with the given id. -/
def CaptureNameForId (id : Nat) : String :=
  (compiledQuery.captures[id]?).getD ""

/-- Whether a match passes a predicate: `(#eq? @capture "text")` fails when
some capture of that name has another text. -/
def predicateHolds (m : QueryMatch) (source : String) : Predicate → Bool
  | .eq capture text =>
    m.Captures.all
      (fun c => !decide (CaptureNameForId c.Index = capture) ||
        decide (c.Node.Content source = text))

/-- Modelled from the spec: `QueryCursor.FilterPredicates` of go-tree-sitter
(spec section 6: textual-equality predicates on captured identifier text).  A
match that fails a predicate of the query keeps no capture; any other match is
returned with its captures unchanged. -/
def FilterPredicates (m : QueryMatch) (source : String) : QueryMatch :=
  if compiledQuery.predicates.all (predicateHolds m source) then
    { Captures := m.Captures }
  else
    { Captures := [] }

/-- The id of a capture name: its position among the query's capture names. -/
def captureId (names : List String) (name : String) : Nat :=
  names.indexOf name

/-- The field name a pattern asks of the node it matches. -/
def Pattern.field : Pattern → Option String
  | .node field _ _ _ => field

mutual
/-- The captures of the match of a pattern at a node, `none` when the node does
not match: the node has the pattern's type and, for every child pattern, the
child of the node in that field matches it. -/
def matchNode (names : List String) : Pattern → Node → Option (List QueryCapture)
  | .node _ type capture children, n =>
    if n.Type = type then
      match matchChildren names children n with
      | some cs =>
        some ((match capture with
          | some name => [{ Index := captureId names name, Node := n }]
          | none => []) ++ cs)
      | none => none
    else none
/-- The captures of the child patterns at the children of a node. -/
def matchChildren (names : List String) : List Pattern → Node → Option (List QueryCapture)
  | [], _ => some []
  | p :: rest, n =>
    match p.field with
    | none => none
    | some f =>
      match n.ChildByFieldName f with
      | none => none
      | some c =>
        match matchNode names p c, matchChildren names rest n with
        | some a, some b => some (a ++ b)
        | _, _ => none
end

mutual
/-- The nodes of a tree in document order. -/
def allNodes : Node → List Node
  | .mk type s e named field cs => Node.mk type s e named field cs :: allNodesList cs
/-- The nodes of a list of trees in document order. -/
def allNodesList : List Node → List Node
  | [] => []
  | c :: cs => allNodes c ++ allNodesList cs
end

/-- Modelled from the spec: the matches a query cursor yields for a query on a
tree (spec section 6: `query(tree, pattern) -> sequence of Match`): one match
for every node the pattern matches, in document order. -/
def queryMatches (q : Query) (root : Node) : List QueryMatch :=
  (allNodes root).filterMap
    (fun n => (matchNode q.captures q.pattern n).map (fun cs => { Captures := cs }))

/-- The loop over `m.Captures` (lines 99-110): `some r` when the loop body
returns `r` from the function, `none` when the loop runs to its end. -/
def capturesLoop (lib : Lib) (source : String) : List QueryCapture → Option (Res Value)
  | [] => none
  | c :: rest =>
    if CaptureNameForId c.Index = "var-value" then
      match buildRanks lib (some c.Node) source with
      | .val ranks => some (.val ranks)
      | .err e => some (.err e)
      | .panicked => some .panicked
      | .outOfFuel => some .outOfFuel
    else
      capturesLoop lib source rest

/-- The loop over `qc.NextMatch()` (lines 92-111) on the matches still to
come: `some r` when a capture loop returns, `none` at `break`. -/
def matchesLoop (lib : Lib) (source : String) : List QueryMatch → Option (Res Value)
  | [] => none
  | m :: rest =>
    match capturesLoop lib source (FilterPredicates m source).Captures with
    | some r => some r
    | none => matchesLoop lib source rest

/-- The loop over `scripts` (lines 78-112) followed by
`return nil, ErrRanksNotFound`.  The message printed for a script that fails
to parse goes to standard output and is not part of the result. -/
def searchScripts (lib : Lib) : List String → Res Value
  | [] => .err .ErrRanksNotFound
  | script :: rest =>
    match lib.ParseCtx script with
    | .error _ => searchScripts lib rest
    | .ok root =>
      match matchesLoop lib script (lib.NextMatch root) with
      | some r => r
      | none => searchScripts lib rest

/-! ## The script collector (lines 35-56) -/

/-- The loop over the children of a `script` element (lines 44-48). -/
def appendTexts : List HtmlNode → List String → List String
  | [], scripts => scripts
  | c :: rest, scripts =>
    if c.Type = NodeType.TextNode then appendTexts rest (scripts ++ [c.Data])
    else appendTexts rest scripts

/-- The loop from `LastChild` along `PrevSibling` (lines 53-55), given the
children from last to first.  The head of the list is the top of the stack
(the last element of the Go slice). -/
def pushAll : List HtmlNode → List HtmlNode → List HtmlNode
  | [], stack => stack
  | c :: rest, stack => pushAll rest (c :: stack)

/-- The stack loop (lines 39-56) with a budget of iterations; `none` when the
budget runs out before the stack is empty.  The head of `stack` is its top. -/
def stackLoop : Nat → List HtmlNode → List String → Option (List String)
  | _, [], scripts => some scripts
  | 0, _ :: _, _ => none
  | fuel + 1, n :: stack, scripts =>
    if n.Type = NodeType.ElementNode ∧ n.Data = "script" then
      stackLoop fuel stack (appendTexts n.children scripts)
    else
      stackLoop fuel (pushAll n.children.reverse stack) scripts

/-- Lines 36-56: the traversal from `stack := []*html.Node{doc}`.  Each
iteration pops one node and no node is pushed twice, so the number of nodes
bounds the iterations. -/
def collectScripts (doc : HtmlNode) : Option (List String) :=
  stackLoop doc.size [doc] []

/-- Go `CollectElimStats()`. -/
def CollectElimStats (lib : Lib) : Res Value :=
  match lib.NewRequest "GET" "https://ut4stats.com/elim_ranks" with
  | .error e => .err e
  | .ok req =>
    match lib.Do req with
    | .error e => .err e
    | .ok body =>
      match lib.HtmlParse body with
      | .error e => .err e
      | .ok doc =>
        match collectScripts doc with
        | none => .outOfFuel
        | some scripts =>
          match lib.NewQuery query with
          | .error e => .err e
          | .ok _ => searchScripts lib scripts

/-! ## Reference definitions the claims are stated against -/

/-- Whether a capture is the pattern's `@var-value`. -/
def isVarValue (c : QueryCapture) : Bool :=
  decide (CaptureNameForId c.Index = "var-value")

/-- The captures a parsed script offers after predicate filtering, in match
order and, within a match, in capture order. -/
def filteredCaptures (lib : Lib) (source : String) (root : Node) : List QueryCapture :=
  (lib.NextMatch root).flatMap (fun m => (FilterPredicates m source).Captures)

/-- The node of the first `var-value` capture of a script: `none` when the
script does not parse or no match of it keeps such a capture. -/
def firstRanksCapture (lib : Lib) (script : String) : Option Node :=
  match lib.ParseCtx script with
  | .error _ => none
  | .ok root => ((filteredCaptures lib script root).find? isVarValue).map QueryCapture.Node

/-- Whether the parser refuses the script. -/
def parseFails (lib : Lib) (script : String) : Bool :=
  match lib.ParseCtx script with
  | .error _ => true
  | .ok _ => false

/-- Whether the script parses and none of its matches keeps a `var-value`
capture after predicate filtering. -/
def noRanksMatch (lib : Lib) (script : String) : Bool :=
  match lib.ParseCtx script with
  | .error _ => false
  | .ok root => !(filteredCaptures lib script root).any isVarValue

/-- The map after the writes `o[k] = v` for the pairs `(k, v)` of a list, in
order. -/
def writeAll (o : List (Value × Value)) (kvs : List (Value × Value)) : List (Value × Value) :=
  kvs.foldl (fun m kv => mapUpdate m kv.1 kv.2) o

/-- The value of the last pair of the list whose key equals `key` (Go `==`). -/
def lastWrite : List (Value × Value) → Value → Option Value
  | [], _ => none
  | (k, v) :: rest, key =>
    match lastWrite rest key with
    | some w => some w
    | none => if keyEq k key then some v else none

/-- The pairs of the list that no later pair overrides: those whose key equals
(Go `==`) the key of no pair after them. -/
def lastOccurrences : List (Value × Value) → List (Value × Value)
  | [] => []
  | (k, v) :: rest =>
    if rest.any (fun kv => keyEq kv.1 k) then lastOccurrences rest
    else (k, v) :: lastOccurrences rest

/-- The keys and values the `object` loop writes, pair by pair, up to the
first pair that does not materialize. -/
def objectWrites (createObject : Option Node → Res Value) :
    List Node → Res (List (Value × Value))
  | [] => .val []
  | child :: rest =>
    match createObject (child.ChildByFieldName "key") with
    | .val key =>
      match createObject (child.ChildByFieldName "value") with
      | .val value =>
        if key.hashable then
          match objectWrites createObject rest with
          | .val kvs => .val ((key, value) :: kvs)
          | .err e => .err e
          | .panicked => .panicked
          | .outOfFuel => .outOfFuel
        else .panicked
      | .err e => .err e
      | .panicked => .panicked
      | .outOfFuel => .outOfFuel
    | .err e => .err e
    | .panicked => .panicked
    | .outOfFuel => .outOfFuel

/-- The data of the text-node children among a list of siblings, in sibling
order. -/
def textData (cs : List HtmlNode) : List String :=
  (cs.filter (fun c => decide (c.Type = NodeType.TextNode))).map HtmlNode.Data

mutual
/-- Reference definition of the script collector, by recursion on the tree in
pre-order: a `script` element gives one entry per text-node child and is not
entered; any other node gives what its children give, from first to last. -/
def preorderScripts : HtmlNode → List String
  | .mk type data cs =>
    if type = NodeType.ElementNode ∧ data = "script" then textData cs
    else preorderScriptsList cs
/-- The reference definition on a list of siblings. -/
def preorderScriptsList : List HtmlNode → List String
  | [] => []
  | c :: cs => preorderScripts c ++ preorderScriptsList cs
end

mutual
/-- Whether the tree contains a `script` element. -/
def hasScript : HtmlNode → Bool
  | .mk type data cs =>
    decide (type = NodeType.ElementNode ∧ data = "script") || hasScriptList cs
/-- Whether one of the trees contains a `script` element. -/
def hasScriptList : List HtmlNode → Bool
  | [] => false
  | c :: cs => hasScript c || hasScriptList cs
end

/-- The node is reached by the traversal of `createObject` with nothing failing
before it, and `e` is the error of the first number node with a text that
`ParseFloat` refuses: the node itself, or the first such node inside the first
array element, pair key or pair value that holds one, everything before it
(elements from left to right, a key before its value) having materialized. -/
inductive FirstNumberError (lib : Lib) (source : String) : Node → GoError → Prop
  | number (n : Node) (cause : NumErr) :
      n.Type = "number" → lib.ParseFloat (n.Content source) = .error cause →
      FirstNumberError lib source n (.numError (n.Content source) cause)
  | element (n c : Node) (pre post : List Node) (e : GoError) :
      n.Type = "array" → n.namedChildren = pre ++ c :: post →
      (∀ p ∈ pre, ∃ v, createObject lib (some p) source = .val v) →
      FirstNumberError lib source c e → FirstNumberError lib source n e
  | key (n c kn : Node) (pre post : List Node) (kvs : List (Value × Value)) (e : GoError) :
      n.Type = "object" → n.namedChildren = pre ++ c :: post →
      List.Forall₂ (fun p kv =>
        createObject lib (p.ChildByFieldName "key") source = .val kv.1 ∧
        createObject lib (p.ChildByFieldName "value") source = .val kv.2 ∧
        kv.1.hashable = true) pre kvs →
      c.ChildByFieldName "key" = some kn →
      FirstNumberError lib source kn e → FirstNumberError lib source n e
  | value (n c vn : Node) (pre post : List Node) (kvs : List (Value × Value)) (k : Value)
      (e : GoError) :
      n.Type = "object" → n.namedChildren = pre ++ c :: post →
      List.Forall₂ (fun p kv =>
        createObject lib (p.ChildByFieldName "key") source = .val kv.1 ∧
        createObject lib (p.ChildByFieldName "value") source = .val kv.2 ∧
        kv.1.hashable = true) pre kvs →
      createObject lib (c.ChildByFieldName "key") source = .val k →
      c.ChildByFieldName "value" = some vn →
      FirstNumberError lib source vn e → FirstNumberError lib source n e

/-- A text node. -/
def textNode (data : String) : HtmlNode :=
  .mk .TextNode data []

/-- An element node. -/
def element (tag : String) (children : List HtmlNode) : HtmlNode :=
  .mk .ElementNode tag children

/-- A document with three `script` elements, two of them split into several
text nodes, one nested in a `div`, and text outside scripts. -/
def sampleDoc : HtmlNode :=
  .mk .DocumentNode ""
    [element "html"
      [element "head" [element "script" [textNode "a", textNode "b"]],
       element "body"
         [textNode "x",
          element "script" [textNode "c", .mk .CommentNode "note" [], textNode "d"],
          element "div" [element "script" [textNode "e"], textNode "y"]]]]

/-- A document without any `script` element. -/
def plainDoc : HtmlNode :=
  .mk .DocumentNode ""
    [element "html" [element "head" [], element "body" [textNode "x", element "p" [textNode "y"]]]]

mutual
/-- Modelled from the spec: the matches of the structural pattern (spec 4.3,
step 2) in document order: every `variable_declarator` node whose `name` field
is an `identifier` and whose `value` field is an `array`, with the identifier
bound to capture 0 and the array to capture 1. -/
def patternMatches : Node → List QueryMatch
  | .mk type s e named field cs =>
    (match (Node.mk type s e named field cs).ChildByFieldName "name",
        (Node.mk type s e named field cs).ChildByFieldName "value" with
      | some nm, some v =>
        if type = "variable_declarator" ∧ nm.Type = "identifier" ∧ v.Type = "array" then
          [{ Captures := [{ Index := 0, Node := nm }, { Index := 1, Node := v }] }]
        else []
      | _, _ => []) ++ patternMatchesList cs
/-- The matches inside a list of sibling nodes. -/
def patternMatchesList : List Node → List QueryMatch
  | [] => []
  | c :: cs => patternMatches c ++ patternMatchesList cs
end

/-- A leaf node. -/
def leaf (type : String) (startByte endByte : Nat) (named : Bool) (field : Option String) : Node :=
  .mk type startByte endByte named field []

/-- The `array` node of `[<digit>]` at `startByte`, in the `value` field. -/
def digitArray (startByte : Nat) : Node :=
  .mk "array" startByte (startByte + 3) true (some "value")
    [leaf "[" startByte (startByte + 1) false none,
     leaf "number" (startByte + 1) (startByte + 2) true none,
     leaf "]" (startByte + 2) (startByte + 3) false none]

/-- The `variable_declaration` of `var <name> = [<digit>]` at `startByte`, for
a name of `len` characters. -/
def varDecl (startByte len : Nat) : Node :=
  .mk "variable_declaration" startByte (startByte + len + 10) true none
    [leaf "var" startByte (startByte + 3) false none,
     .mk "variable_declarator" (startByte + 4) (startByte + len + 10) true none
       [leaf "identifier" (startByte + 4) (startByte + len + 4) true (some "name"),
        leaf "=" (startByte + len + 5) (startByte + len + 6) false none,
        digitArray (startByte + len + 7)]]

/-- Source of a script declaring `ranks`. -/
def ranksScript : String := "var ranks = [2]"

/-- Tree of `ranksScript`. -/
def ranksTree : Node :=
  .mk "program" 0 15 true none [varDecl 0 5]

/-- Source of a script declaring another array before `ranks`. -/
def otherScript : String := "var other = [1];var ranks = [2]"

/-- Tree of `otherScript`. -/
def otherTree : Node :=
  .mk "program" 0 31 true none [varDecl 0 5, leaf ";" 15 16 false none, varDecl 16 5]

/-- The `pair` node of `"<letter>":<digit>` at `startByte`. -/
def pairNode (startByte : Nat) : Node :=
  .mk "pair" startByte (startByte + 5) true none
    [leaf "string" startByte (startByte + 3) true (some "key"),
     leaf ":" (startByte + 3) (startByte + 4) false none,
     leaf "number" (startByte + 4) (startByte + 5) true (some "value")]

/-- Source of an object literal that repeats a key. -/
def dupSource : String := "\x7b\"a\":1,\"b\":2,\"a\":0\x7d"

/-- Tree of `dupSource`. -/
def dupObject : Node :=
  .mk "object" 0 19 true none
    [leaf "\x7b" 0 1 false none, pairNode 1, leaf "," 6 7 false none, pairNode 7,
     leaf "," 12 13 false none, pairNode 13, leaf "\x7d" 18 19 false none]

/-- Source of an object literal whose second value is an identifier. -/
def identSource : String := "\x7b\"a\":1,\"x\":y\x7d"

/-- The pair `"x":y` of `identSource`. -/
def identPair : Node :=
  .mk "pair" 7 12 true none
    [leaf "string" 7 10 true (some "key"), leaf ":" 10 11 false none,
     leaf "identifier" 11 12 true (some "value")]

/-- Tree of `identSource`. -/
def identObject : Node :=
  .mk "object" 0 13 true none
    [leaf "\x7b" 0 1 false none, pairNode 1, leaf "," 6 7 false none, identPair,
     leaf "\x7d" 12 13 false none]

/-- The same object without the pair `"x":y`. -/
def identObjectRest : Node :=
  .mk "object" 0 13 true none
    [leaf "\x7b" 0 1 false none, pairNode 1, leaf "\x7d" 12 13 false none]

/-- Tree of the object literal `{"x": someVar}`. -/
def someVarObject : Node :=
  .mk "object" 0 14 true none
    [leaf "\x7b" 0 1 false none,
     .mk "pair" 1 13 true none
       [leaf "string" 1 4 true (some "key"), leaf ":" 4 5 false none,
        leaf "identifier" 6 13 true (some "value")],
     leaf "\x7d" 13 14 false none]

/-- Source of a script with no array declaration. -/
def plainScript : String := "go()"

/-- Tree of `plainScript`. -/
def plainTree : Node :=
  .mk "program" 0 4 true none
    [.mk "expression_statement" 0 4 true none
      [.mk "call_expression" 0 4 true none
        [leaf "identifier" 0 2 true (some "function"),
         .mk "arguments" 2 4 true (some "arguments")
           [leaf "(" 2 3 false none, leaf ")" 3 4 false none]]]]

/-- A library instance for the sample inputs: three scripts parse to the trees
above and every other text is refused by the parser; four decimal texts are
numbers. -/
def sampleLib : Lib where
  NewRequest := fun method url => .ok (method, url)
  Do := fun _ => .ok ""
  HtmlParse := fun _ => .ok (.mk .DocumentNode "" [])
  NewQuery := fun _ => .ok ()
  ParseCtx := fun script =>
    if script = ranksScript then .ok ranksTree
    else if script = otherScript then .ok otherTree
    else if script = plainScript then .ok plainTree
    else .error (.external "parse failed")
  NextMatch := patternMatches
  ParseFloat := fun text =>
    if text = "0" then .ok ⟨0⟩
    else if text = "1" then .ok ⟨0x3FF0000000000000⟩
    else if text = "2" then .ok ⟨0x4000000000000000⟩
    else if text = "3.14" then .ok ⟨0x40091EB851EB851F⟩
    else .error .invalid

/-! ## Further sample inputs -/

/-- Source of the object literal `{name: "a", score: 1}`, with unquoted keys. -/
def unquotedSource : String := "\x7bname: \"a\", score: 1\x7d"

/-- Tree of `unquotedSource`: the keys are `property_identifier` nodes. -/
def unquotedObject : Node :=
  .mk "object" 0 21 true none
    [leaf "\x7b" 0 1 false none,
     .mk "pair" 1 10 true none
       [leaf "property_identifier" 1 5 true (some "key"),
        leaf ":" 5 6 false none,
        leaf "string" 7 10 true (some "value")],
     leaf "," 10 11 false none,
     .mk "pair" 12 20 true none
       [leaf "property_identifier" 12 17 true (some "key"),
        leaf ":" 17 18 false none,
        leaf "number" 19 20 true (some "value")],
     leaf "\x7d" 20 21 false none]

/-- Source of an object literal with a computed key. -/
def compositeSource : String := "\x7b[1]: 2\x7d"

/-- Tree of `compositeSource`: the key of the pair is a
`computed_property_name` node around the number. -/
def compositeObject : Node :=
  .mk "object" 0 8 true none
    [leaf "\x7b" 0 1 false none,
     .mk "pair" 1 7 true none
       [.mk "computed_property_name" 1 4 true (some "key")
          [leaf "[" 1 2 false none,
           leaf "number" 2 3 true none,
           leaf "]" 3 4 false none],
        leaf ":" 4 5 false none,
        leaf "number" 6 7 true (some "value")],
     leaf "\x7d" 7 8 false none]

/-- Source of a script whose `ranks` array holds an object with a shorthand
property. -/
def crashScript : String := "var ranks = [\x7ba\x7d]"

/-- The `object` node of `crashScript`: its named child is a
`shorthand_property_identifier`, which has no `key` and no `value` field. -/
def crashObject : Node :=
  .mk "object" 13 16 true none
    [leaf "\x7b" 13 14 false none,
     leaf "shorthand_property_identifier" 14 15 true none,
     leaf "\x7d" 15 16 false none]

/-- The `array` node of `crashScript`. -/
def crashArray : Node :=
  .mk "array" 12 17 true (some "value")
    [leaf "[" 12 13 false none, crashObject, leaf "]" 16 17 false none]

/-- Tree of `crashScript`. -/
def crashTree : Node :=
  .mk "program" 0 17 true none
    [.mk "variable_declaration" 0 17 true none
       [leaf "var" 0 3 false none,
        .mk "variable_declarator" 4 17 true none
          [leaf "identifier" 4 9 true (some "name"),
           leaf "=" 10 11 false none,
           crashArray]]]

/-- Source of a script whose `ranks` array holds a hexadecimal integer, which
`strconv.ParseFloat` refuses, inside an object. -/
def badNumberScript : String := "var ranks = [1, \x7b\"a\": 0x1F\x7d, 2]"

/-- The pair `"a": 0x1F` of `badNumberScript`. -/
def badNumberPair : Node :=
  .mk "pair" 17 26 true none
    [leaf "string" 17 20 true (some "key"),
     leaf ":" 20 21 false none,
     leaf "number" 22 26 true (some "value")]

/-- The `object` node of `badNumberScript`. -/
def badNumberObject : Node :=
  .mk "object" 16 27 true none
    [leaf "\x7b" 16 17 false none, badNumberPair, leaf "\x7d" 26 27 false none]

/-- The `array` node of `badNumberScript`. -/
def badNumberArray : Node :=
  .mk "array" 12 31 true (some "value")
    [leaf "[" 12 13 false none,
     leaf "number" 13 14 true none,
     leaf "," 14 15 false none,
     badNumberObject,
     leaf "," 27 28 false none,
     leaf "number" 29 30 true none,
     leaf "]" 30 31 false none]

/-- Tree of `badNumberScript`. -/
def badNumberTree : Node :=
  .mk "program" 0 31 true none
    [.mk "variable_declaration" 0 31 true none
       [leaf "var" 0 3 false none,
        .mk "variable_declarator" 4 31 true none
          [leaf "identifier" 4 9 true (some "name"),
           leaf "=" 10 11 false none,
           badNumberArray]]]

/-- Source of the script of the spec's example. -/
def exampleScript : String :=
  "var ranks = [\x7b\"name\": \"a\", \"score\": 1\x7d, \x7b\"name\": \"b\", \"score\": 2\x7d]"

/-- The `array` node of `exampleScript`. -/
def exampleArray : Node :=
  .mk "array" 12 66 true (some "value")
    [leaf "[" 12 13 false none,
     .mk "object" 13 38 true none
       [leaf "\x7b" 13 14 false none,
        .mk "pair" 14 25 true none
          [leaf "string" 14 20 true (some "key"),
           leaf ":" 20 21 false none,
           leaf "string" 22 25 true (some "value")],
        leaf "," 25 26 false none,
        .mk "pair" 27 37 true none
          [leaf "string" 27 34 true (some "key"),
           leaf ":" 34 35 false none,
           leaf "number" 36 37 true (some "value")],
        leaf "\x7d" 37 38 false none],
     leaf "," 38 39 false none,
     .mk "object" 40 65 true none
       [leaf "\x7b" 40 41 false none,
        .mk "pair" 41 52 true none
          [leaf "string" 41 47 true (some "key"),
           leaf ":" 47 48 false none,
           leaf "string" 49 52 true (some "value")],
        leaf "," 52 53 false none,
        .mk "pair" 54 64 true none
          [leaf "string" 54 61 true (some "key"),
           leaf ":" 61 62 false none,
           leaf "number" 63 64 true (some "value")],
        leaf "\x7d" 64 65 false none],
     leaf "]" 65 66 false none]

/-- Tree of `exampleScript`. -/
def exampleTree : Node :=
  .mk "program" 0 66 true none
    [.mk "variable_declaration" 0 66 true none
       [leaf "var" 0 3 false none,
        .mk "variable_declarator" 4 66 true none
          [leaf "identifier" 4 9 true (some "name"),
           leaf "=" 10 11 false none,
           exampleArray]]]

/-- A page whose only script is `ranksScript`. -/
def ranksDoc : HtmlNode :=
  .mk .DocumentNode ""
    [element "html" [element "head" [element "script" [textNode ranksScript]], element "body" []]]

/-- The sample library extended with the three scripts above; its page is
`ranksDoc`. -/
def extraLib : Lib where
  NewRequest := sampleLib.NewRequest
  Do := sampleLib.Do
  HtmlParse := fun _ => .ok ranksDoc
  NewQuery := sampleLib.NewQuery
  ParseCtx := fun script =>
    if script = exampleScript then .ok exampleTree
    else if script = crashScript then .ok crashTree
    else if script = badNumberScript then .ok badNumberTree
    else sampleLib.ParseCtx script
  NextMatch := patternMatches
  ParseFloat := sampleLib.ParseFloat

/-- Source of a script whose array holds a string with a two-byte character
before other elements. -/
def accentScript : String := "var ranks = [\"é\", \"b\", 2]"

/-- The `array` node of `accentScript`; the ranges are byte offsets, `é` taking
the bytes 14 and 15. -/
def accentArray : Node :=
  .mk "array" 12 26 true (some "value")
    [leaf "[" 12 13 false none,
     leaf "string" 13 17 true none,
     leaf "," 17 18 false none,
     leaf "string" 19 22 true none,
     leaf "," 22 23 false none,
     leaf "number" 24 25 true none,
     leaf "]" 25 26 false none]

/-- Tree of `accentScript`. -/
def accentTree : Node :=
  .mk "program" 0 26 true none
    [.mk "variable_declaration" 0 26 true none
       [leaf "var" 0 3 false none,
        .mk "variable_declarator" 4 26 true none
          [leaf "identifier" 4 9 true (some "name"),
           leaf "=" 10 11 false none,
           accentArray]]]

/-- Source of a script that declares the array `é` before the array `ranks`. -/
def accentOtherScript : String := "var é = [1];var ranks = [2]"

/-- Tree of `accentOtherScript`, with byte offsets. -/
def accentOtherTree : Node :=
  .mk "program" 0 28 true none
    [.mk "variable_declaration" 0 12 true none
       [leaf "var" 0 3 false none,
        .mk "variable_declarator" 4 12 true none
          [leaf "identifier" 4 6 true (some "name"),
           leaf "=" 7 8 false none,
           digitArray 9]],
     leaf ";" 12 13 false none,
     .mk "variable_declaration" 13 28 true none
       [leaf "var" 13 16 false none,
        .mk "variable_declarator" 17 28 true none
          [leaf "identifier" 17 22 true (some "name"),
           leaf "=" 23 24 false none,
           digitArray 25]]]

/-- Source of a script whose array holds a hexadecimal integer after a string
with a two-byte character. -/
def accentBadScript : String := "var ranks = [\"é\", 0x1F, 2]"

/-- The `array` node of `accentBadScript`, with byte offsets. -/
def accentBadArray : Node :=
  .mk "array" 12 27 true (some "value")
    [leaf "[" 12 13 false none,
     leaf "string" 13 17 true none,
     leaf "," 17 18 false none,
     leaf "number" 19 23 true none,
     leaf "," 23 24 false none,
     leaf "number" 25 26 true none,
     leaf "]" 26 27 false none]

/-- Tree of `accentBadScript`. -/
def accentBadTree : Node :=
  .mk "program" 0 27 true none
    [.mk "variable_declaration" 0 27 true none
       [leaf "var" 0 3 false none,
        .mk "variable_declarator" 4 27 true none
          [leaf "identifier" 4 9 true (some "name"),
           leaf "=" 10 11 false none,
           accentBadArray]]]

/-- A library instance with the modelled libraries: the cursor yields the
matches of the compiled query, numbers are read by `strconv.ParseFloat`, and
the parser knows the scripts above besides those of `extraLib`. -/
def goLib : Lib where
  NewRequest := sampleLib.NewRequest
  Do := sampleLib.Do
  HtmlParse := extraLib.HtmlParse
  NewQuery := sampleLib.NewQuery
  ParseCtx := fun script =>
    if script = accentScript then .ok accentTree
    else if script = accentOtherScript then .ok accentOtherTree
    else if script = accentBadScript then .ok accentBadTree
    else extraLib.ParseCtx script
  NextMatch := queryMatches compiledQuery
  ParseFloat := strconv.ParseFloat

/-! ## Facts about the embedding -/

set_option maxRecDepth 100000

/-- The query text of lines 63-70 compiles to the pattern of a
`variable_declarator` with an `identifier` in `name`, bound to `var-name`, and
an `array` in `value`, bound to `var-value`, and to the one predicate that the
text of `var-name` is `ranks`. -/
theorem compiledQuery_eq :
    compiledQuery =
      { pattern := .node none "variable_declarator" none
          [.node (some "name") "identifier" (some "var-name") [],
           .node (some "value") "array" (some "var-value") []],
        predicates := [.eq "var-name" "ranks"],
        captures := ["var-name", "var-value"] } := by
  rfl

theorem CaptureNameForId_zero : CaptureNameForId 0 = "var-name" := by
  unfold CaptureNameForId
  rw [compiledQuery_eq]
  rfl

theorem CaptureNameForId_one : CaptureNameForId 1 = "var-value" := by
  unfold CaptureNameForId
  rw [compiledQuery_eq]
  rfl

theorem height_le_heightList {c : Node} {cs : List Node} (h : c ∈ cs) :
    c.height ≤ heightList cs := by
  induction cs with
  | nil => cases h
  | cons d ds ih =>
    rw [heightList]
    rcases List.mem_cons.mp h with h | h
    · subst h; exact le_max_left _ _
    · exact le_trans (ih h) (le_max_right _ _)

theorem height_eq (n : Node) : n.height = heightList n.children + 1 := by
  cases n
  rw [Node.height, Node.children]

theorem height_child_lt {c n : Node} (h : c ∈ n.children) : c.height < n.height := by
  rw [height_eq n]
  exact Nat.lt_succ_of_le (height_le_heightList h)

theorem height_named_lt {c n : Node} (h : c ∈ n.namedChildren) : c.height < n.height :=
  height_child_lt (List.mem_of_mem_filter h)

theorem height_pos (n : Node) : 0 < n.height := by
  rw [height_eq n]
  exact Nat.succ_pos _

theorem heightOpt_field_lt (c : Node) (name : String) :
    heightOpt (c.ChildByFieldName name) < c.height := by
  unfold Node.ChildByFieldName
  cases hf : c.children.find? (fun d => decide (d.field = some name)) with
  | none => exact height_pos c
  | some k => exact height_child_lt (List.mem_of_find?_eq_some hf)

theorem arrayLoop_congr (f g : Option Node → Res Value) (cs : List Node)
    (h : ∀ c ∈ cs, f (some c) = g (some c)) (a : List Value) :
    arrayLoop f cs a = arrayLoop g cs a := by
  induction cs generalizing a with
  | nil => rfl
  | cons c rest ih =>
    have hc := h c (List.mem_cons_self _ _)
    have hrest : ∀ d ∈ rest, f (some d) = g (some d) :=
      fun d hd => h d (List.mem_cons_of_mem _ hd)
    simp only [arrayLoop, hc]
    cases g (some c) with
    | val value => exact ih hrest _
    | err e => rfl
    | panicked => rfl
    | outOfFuel => rfl

theorem objectLoop_congr (f g : Option Node → Res Value) (cs : List Node)
    (h : ∀ c ∈ cs, ∀ name, f (c.ChildByFieldName name) = g (c.ChildByFieldName name))
    (o : List (Value × Value)) :
    objectLoop f cs o = objectLoop g cs o := by
  induction cs generalizing o with
  | nil => rfl
  | cons c rest ih =>
    have hk := h c (List.mem_cons_self _ _) "key"
    have hv := h c (List.mem_cons_self _ _) "value"
    have hrest : ∀ d ∈ rest, ∀ name,
        f (d.ChildByFieldName name) = g (d.ChildByFieldName name) :=
      fun d hd => h d (List.mem_cons_of_mem _ hd)
    simp only [objectLoop, hk, hv]
    cases g (c.ChildByFieldName "key") with
    | val key =>
      cases g (c.ChildByFieldName "value") with
      | val value =>
        dsimp only
        cases mapassign o key value with
        | some o' => exact ih hrest o'
        | none => rfl
      | err e => rfl
      | panicked => rfl
      | outOfFuel => rfl
    | err e => rfl
    | panicked => rfl
    | outOfFuel => rfl

/-- Any two budgets above the height of the tree give the same outcome. -/
theorem createObjectFuel_stable (lib : Lib) (source : String) :
    ∀ (fuel fuel' : Nat) (node : Option Node),
      heightOpt node < fuel → heightOpt node < fuel' →
      createObjectFuel lib source fuel node = createObjectFuel lib source fuel' node := by
  intro fuel
  induction fuel with
  | zero => intro fuel' node h; exact absurd h (Nat.not_lt_zero _)
  | succ fuel ih =>
    intro fuel' node h h'
    cases fuel' with
    | zero => exact absurd h' (Nat.not_lt_zero _)
    | succ fuel' =>
      cases node with
      | none => rfl
      | some n =>
        have hn : n.height ≤ fuel := Nat.le_of_lt_succ h
        have hn' : n.height ≤ fuel' := Nat.le_of_lt_succ h'
        have harr : arrayLoop (createObjectFuel lib source fuel) n.namedChildren [] =
            arrayLoop (createObjectFuel lib source fuel') n.namedChildren [] :=
          arrayLoop_congr _ _ _ (fun c hc =>
            ih fuel' (some c) (lt_of_lt_of_le (height_named_lt hc) hn)
              (lt_of_lt_of_le (height_named_lt hc) hn')) _
        have hobj : objectLoop (createObjectFuel lib source fuel) n.namedChildren [] =
            objectLoop (createObjectFuel lib source fuel') n.namedChildren [] :=
          objectLoop_congr _ _ _ (fun c hc name =>
            ih fuel' (c.ChildByFieldName name)
              (lt_of_lt_of_le (lt_trans (heightOpt_field_lt c name) (height_named_lt hc)) hn)
              (lt_of_lt_of_le (lt_trans (heightOpt_field_lt c name) (height_named_lt hc)) hn')) _
        simp only [createObjectFuel, harr, hobj]

theorem createObject_none (lib : Lib) (source : String) :
    createObject lib none source = .panicked := rfl

/-- The body of `createObject` with the recursive calls as `createObject`. -/
theorem createObject_some (lib : Lib) (n : Node) (source : String) :
    createObject lib (some n) source =
      if n.Type = "array" then
        arrayLoop (fun c => createObject lib c source) n.namedChildren []
      else if n.Type = "object" then
        objectLoop (fun c => createObject lib c source) n.namedChildren []
      else if n.Type = "string" then
        .val (.str (n.Content source))
      else if n.Type = "number" then
        match lib.ParseFloat (n.Content source) with
        | .error cause => .err (.numError (n.Content source) cause)
        | .ok numeric => .val (.num numeric)
      else
        .val .null := by
  have harr : arrayLoop (createObjectFuel lib source n.height) n.namedChildren [] =
      arrayLoop (fun c => createObject lib c source) n.namedChildren [] :=
    arrayLoop_congr (createObjectFuel lib source n.height)
      (fun c => createObject lib c source) _ (fun c hc =>
      createObjectFuel_stable lib source n.height (heightOpt (some c) + 1) (some c)
        (height_named_lt hc) (Nat.lt_succ_self _)) _
  have hobj : objectLoop (createObjectFuel lib source n.height) n.namedChildren [] =
      objectLoop (fun c => createObject lib c source) n.namedChildren [] :=
    objectLoop_congr (createObjectFuel lib source n.height)
      (fun c => createObject lib c source) _ (fun c hc name =>
      createObjectFuel_stable lib source n.height
        (heightOpt (c.ChildByFieldName name) + 1) (c.ChildByFieldName name)
        (lt_trans (heightOpt_field_lt c name) (height_named_lt hc))
        (Nat.lt_succ_self _)) _
  simp only [createObject, heightOpt, createObjectFuel, harr, hobj]

/-! ### The search loop -/

theorem capturesLoop_eq (lib : Lib) (source : String) (cs : List QueryCapture) :
    capturesLoop lib source cs =
      (cs.find? isVarValue).map (fun c => buildRanks lib (some c.Node) source) := by
  induction cs with
  | nil => rfl
  | cons c rest ih =>
    by_cases hc : CaptureNameForId c.Index = "var-value"
    · have hv : isVarValue c = true := by simp [isVarValue, hc]
      simp only [capturesLoop, hc, if_true, List.find?_cons, hv, Option.map_some']
      cases buildRanks lib (some c.Node) source <;> rfl
    · have hv : isVarValue c = false := by simp [isVarValue, hc]
      simp only [capturesLoop, hc, if_false, List.find?_cons, hv]
      exact ih

theorem matchesLoop_eq (lib : Lib) (source : String) (ms : List QueryMatch) :
    matchesLoop lib source ms =
      ((ms.flatMap (fun m => (FilterPredicates m source).Captures)).find? isVarValue).map
        (fun c => buildRanks lib (some c.Node) source) := by
  induction ms with
  | nil => rfl
  | cons m rest ih =>
    simp only [matchesLoop, capturesLoop_eq, List.flatMap_cons, List.find?_append]
    cases hf : (FilterPredicates m source).Captures.find? isVarValue with
    | none => simpa using ih
    | some c => simp

theorem searchScripts_cons_none (lib : Lib) (script : String) (rest : List String)
    (h : firstRanksCapture lib script = none) :
    searchScripts lib (script :: rest) = searchScripts lib rest := by
  unfold firstRanksCapture at h
  rw [searchScripts]
  cases hp : lib.ParseCtx script with
  | error e => rfl
  | ok root =>
    rw [hp] at h
    simp only [Option.map_eq_none'] at h
    simp only [matchesLoop_eq]
    unfold filteredCaptures at h
    rw [h]
    rfl

theorem searchScripts_cons_some (lib : Lib) (script : String) (rest : List String)
    (node : Node) (h : firstRanksCapture lib script = some node) :
    searchScripts lib (script :: rest) = buildRanks lib (some node) script := by
  unfold firstRanksCapture at h
  rw [searchScripts]
  cases hp : lib.ParseCtx script with
  | error e => rw [hp] at h; cases h
  | ok root =>
    rw [hp] at h
    simp only [matchesLoop_eq]
    unfold filteredCaptures at h
    dsimp only at h
    cases hf : ((lib.NextMatch root).flatMap
        (fun m => (FilterPredicates m script).Captures)).find? isVarValue with
    | none => rw [hf] at h; cases h
    | some c =>
      rw [hf] at h
      simp only [Option.map_some', Option.some.injEq] at h
      simp only [Option.map_some', h]

theorem searchScripts_append_none (lib : Lib) (pre rest : List String)
    (h : ∀ p ∈ pre, firstRanksCapture lib p = none) :
    searchScripts lib (pre ++ rest) = searchScripts lib rest := by
  induction pre with
  | nil => rfl
  | cons p ps ih =>
    rw [List.cons_append, searchScripts_cons_none lib p _ (h p (List.mem_cons_self _ _))]
    exact ih (fun q hq => h q (List.mem_cons_of_mem _ hq))

theorem searchScripts_filter (lib : Lib) (keep : String → Bool) (scripts : List String)
    (h : ∀ s ∈ scripts, keep s = false → firstRanksCapture lib s = none) :
    searchScripts lib scripts = searchScripts lib (scripts.filter keep) := by
  induction scripts with
  | nil => rfl
  | cons s rest ih =>
    have hrest : ∀ t ∈ rest, keep t = false → firstRanksCapture lib t = none :=
      fun t ht => h t (List.mem_cons_of_mem _ ht)
    cases hk : keep s with
    | false =>
      rw [List.filter_cons_of_neg (by simp [hk]),
        searchScripts_cons_none lib s rest (h s (List.mem_cons_self _ _) hk)]
      exact ih hrest
    | true =>
      rw [List.filter_cons_of_pos (by simp [hk])]
      cases hf : firstRanksCapture lib s with
      | none =>
        rw [searchScripts_cons_none lib s _ hf, searchScripts_cons_none lib s _ hf]
        exact ih hrest
      | some node =>
        rw [searchScripts_cons_some lib s _ node hf, searchScripts_cons_some lib s _ node hf]

theorem firstRanksCapture_of_parseFails (lib : Lib) (s : String)
    (h : parseFails lib s = true) : firstRanksCapture lib s = none := by
  unfold parseFails at h
  unfold firstRanksCapture
  cases hp : lib.ParseCtx s with
  | error e => rfl
  | ok root => rw [hp] at h; cases h

theorem firstRanksCapture_of_noRanksMatch (lib : Lib) (s : String)
    (h : noRanksMatch lib s = true) : firstRanksCapture lib s = none := by
  unfold noRanksMatch at h
  unfold firstRanksCapture
  cases hp : lib.ParseCtx s with
  | error e => rfl
  | ok root =>
    rw [hp] at h
    simp only [Bool.not_eq_true', List.any_eq_false] at h
    simp only [Option.map_eq_none', List.find?_eq_none]
    exact h

/-! ### Errors of the materializer -/

theorem arrayLoop_err (f : Option Node → Res Value) (cs : List Node) (a : List Value)
    (e : GoError) (h : arrayLoop f cs a = .err e) : ∃ c ∈ cs, f (some c) = .err e := by
  induction cs generalizing a with
  | nil => simp [arrayLoop] at h
  | cons c rest ih =>
    rw [arrayLoop] at h
    cases hc : f (some c) with
    | val value =>
      rw [hc] at h
      obtain ⟨d, hd, hfd⟩ := ih _ h
      exact ⟨d, List.mem_cons_of_mem _ hd, hfd⟩
    | err e' =>
      rw [hc] at h
      cases h
      exact ⟨c, List.mem_cons_self _ _, hc⟩
    | panicked => rw [hc] at h; cases h
    | outOfFuel => rw [hc] at h; cases h

theorem objectLoop_err (f : Option Node → Res Value) (cs : List Node)
    (o : List (Value × Value)) (e : GoError) (h : objectLoop f cs o = .err e) :
    ∃ c ∈ cs, ∃ name, f (c.ChildByFieldName name) = .err e := by
  induction cs generalizing o with
  | nil => simp [objectLoop] at h
  | cons c rest ih =>
    rw [objectLoop] at h
    cases hk : f (c.ChildByFieldName "key") with
    | val key =>
      rw [hk] at h
      dsimp only at h
      cases hv : f (c.ChildByFieldName "value") with
      | val value =>
        rw [hv] at h
        dsimp only at h
        cases hm : mapassign o key value with
        | some o' =>
          rw [hm] at h
          obtain ⟨d, hd, hfd⟩ := ih _ h
          exact ⟨d, List.mem_cons_of_mem _ hd, hfd⟩
        | none => rw [hm] at h; cases h
      | err e' =>
        rw [hv] at h
        cases h
        exact ⟨c, List.mem_cons_self _ _, "value", hv⟩
      | panicked => rw [hv] at h; cases h
      | outOfFuel => rw [hv] at h; cases h
    | err e' =>
      rw [hk] at h
      cases h
      exact ⟨c, List.mem_cons_self _ _, "key", hk⟩
    | panicked => rw [hk] at h; cases h
    | outOfFuel => rw [hk] at h; cases h

/-- Every error `createObject` returns is the `*strconv.NumError` of a
`ParseFloat` call. -/
theorem createObjectFuel_err (lib : Lib) (source : String) :
    ∀ (fuel : Nat) (node : Option Node) (e : GoError),
      createObjectFuel lib source fuel node = .err e → ∃ num cause, e = .numError num cause := by
  intro fuel
  induction fuel with
  | zero => intro node e h; simp [createObjectFuel] at h
  | succ fuel ih =>
    intro node e h
    cases node with
    | none => simp [createObjectFuel] at h
    | some n =>
      rw [createObjectFuel] at h
      split at h
      · obtain ⟨c, _, hc⟩ := arrayLoop_err _ _ _ _ h
        exact ih _ _ hc
      · split at h
        · obtain ⟨c, _, name, hc⟩ := objectLoop_err _ _ _ _ h
          exact ih _ _ hc
        · split at h
          · cases h
          · split at h
            · split at h
              · cases h; exact ⟨_, _, rfl⟩
              · cases h
            · cases h

theorem buildRanks_ne_ranksNotFound (lib : Lib) (node : Option Node) (source : String) :
    buildRanks lib node source ≠ .err .ErrRanksNotFound := by
  intro h
  obtain ⟨num, cause, hc⟩ := createObjectFuel_err lib source _ node _ h
  cases hc

theorem arrayLoop_outOfFuel (f : Option Node → Res Value) (cs : List Node) (a : List Value)
    (h : arrayLoop f cs a = .outOfFuel) : ∃ c ∈ cs, f (some c) = .outOfFuel := by
  induction cs generalizing a with
  | nil => simp [arrayLoop] at h
  | cons c rest ih =>
    rw [arrayLoop] at h
    cases hc : f (some c) with
    | val value =>
      rw [hc] at h
      obtain ⟨d, hd, hfd⟩ := ih _ h
      exact ⟨d, List.mem_cons_of_mem _ hd, hfd⟩
    | err e => rw [hc] at h; cases h
    | panicked => rw [hc] at h; cases h
    | outOfFuel => exact ⟨c, List.mem_cons_self _ _, hc⟩

theorem objectLoop_outOfFuel (f : Option Node → Res Value) (cs : List Node)
    (o : List (Value × Value)) (h : objectLoop f cs o = .outOfFuel) :
    ∃ c ∈ cs, ∃ name, f (c.ChildByFieldName name) = .outOfFuel := by
  induction cs generalizing o with
  | nil => simp [objectLoop] at h
  | cons c rest ih =>
    rw [objectLoop] at h
    cases hk : f (c.ChildByFieldName "key") with
    | val key =>
      rw [hk] at h
      dsimp only at h
      cases hv : f (c.ChildByFieldName "value") with
      | val value =>
        rw [hv] at h
        dsimp only at h
        cases hm : mapassign o key value with
        | some o' =>
          rw [hm] at h
          obtain ⟨d, hd, hfd⟩ := ih _ h
          exact ⟨d, List.mem_cons_of_mem _ hd, hfd⟩
        | none => rw [hm] at h; cases h
      | err e => rw [hv] at h; cases h
      | panicked => rw [hv] at h; cases h
      | outOfFuel => exact ⟨c, List.mem_cons_self _ _, "value", hv⟩
    | err e => rw [hk] at h; cases h
    | panicked => rw [hk] at h; cases h
    | outOfFuel => exact ⟨c, List.mem_cons_self _ _, "key", hk⟩

/-- A budget above the height of the tree is never exhausted. -/
theorem createObjectFuel_ne_outOfFuel (lib : Lib) (source : String) :
    ∀ (fuel : Nat) (node : Option Node), heightOpt node < fuel →
      createObjectFuel lib source fuel node ≠ .outOfFuel := by
  intro fuel
  induction fuel with
  | zero => intro node h; exact absurd h (Nat.not_lt_zero _)
  | succ fuel ih =>
    intro node hlt h
    cases node with
    | none => simp [createObjectFuel] at h
    | some n =>
      have hn : n.height ≤ fuel := Nat.le_of_lt_succ hlt
      rw [createObjectFuel] at h
      split at h
      · obtain ⟨c, hc, hf⟩ := arrayLoop_outOfFuel _ _ _ h
        exact ih (some c) (lt_of_lt_of_le (height_named_lt hc) hn) hf
      · split at h
        · obtain ⟨c, hc, name, hf⟩ := objectLoop_outOfFuel _ _ _ h
          exact ih (c.ChildByFieldName name)
            (lt_of_lt_of_le (lt_trans (heightOpt_field_lt c name) (height_named_lt hc)) hn) hf
        · split at h
          · cases h
          · split at h
            · split at h
              · cases h
              · cases h
            · cases h

/-- The recursion of `createObject` ends within the budget of its wrapper. -/
theorem createObject_ne_outOfFuel (lib : Lib) (node : Option Node) (source : String) :
    createObject lib node source ≠ .outOfFuel :=
  createObjectFuel_ne_outOfFuel lib source _ node (Nat.lt_succ_self _)

/-! ### The `array` loop -/

theorem arrayLoop_val (f : Option Node → Res Value) (cs : List Node) (vs : List Value)
    (h : List.Forall₂ (fun c v => f (some c) = .val v) cs vs) (a : List Value) :
    arrayLoop f cs a = .val (.arr (a ++ vs)) := by
  induction h generalizing a with
  | nil => simp [arrayLoop]
  | cons hc _ ih =>
    rw [arrayLoop, hc]
    dsimp only
    rw [ih, List.append_assoc, List.singleton_append]

theorem forall₂_of_forall_exists {α β : Type} (R : α → β → Prop) (cs : List α)
    (h : ∀ c ∈ cs, ∃ v, R c v) : ∃ vs, List.Forall₂ R cs vs := by
  induction cs with
  | nil => exact ⟨[], List.Forall₂.nil⟩
  | cons c rest ih =>
    obtain ⟨v, hv⟩ := h c (List.mem_cons_self _ _)
    obtain ⟨vs, hvs⟩ := ih (fun d hd => h d (List.mem_cons_of_mem _ hd))
    exact ⟨v :: vs, List.Forall₂.cons hv hvs⟩

theorem forall₂_getElem? {α β : Type} (R : α → β → Prop) (cs : List α) (vs : List β)
    (h : List.Forall₂ R cs vs) :
    ∀ (i : Nat) (c : α), cs[i]? = some c → ∃ v, vs[i]? = some v ∧ R c v := by
  induction h with
  | nil => intro i c hc; simp at hc
  | cons hr _ ih =>
    intro i c hc
    cases i with
    | zero =>
      simp only [List.getElem?_cons_zero, Option.some.injEq] at hc
      subst hc
      exact ⟨_, by simp, hr⟩
    | succ i =>
      simp only [List.getElem?_cons_succ] at hc
      obtain ⟨v, hv, hR⟩ := ih i c hc
      exact ⟨v, by simpa using hv, hR⟩

/-! ### Go maps -/

theorem goEq_symm (a b : Float64) : a.goEq b = b.goEq a := by
  unfold Float64.goEq
  cases a.isNaN <;> cases b.isNaN <;> cases a.isZero <;> cases b.isZero <;> simp [eq_comm]

theorem goEq_trans (a b c : Float64) (hab : a.goEq b = true) (hbc : b.goEq c = true) :
    a.goEq c = true := by
  unfold Float64.goEq at *
  simp only [Bool.and_eq_true, Bool.not_eq_true', Bool.or_eq_true, decide_eq_true_eq] at *
  obtain ⟨⟨ha, hb⟩, h1⟩ := hab
  obtain ⟨⟨_, hc⟩, h2⟩ := hbc
  refine ⟨⟨ha, hc⟩, ?_⟩
  rcases h1 with h1 | ⟨h1a, h1b⟩
  · rcases h2 with h2 | ⟨h2b, h2c⟩
    · exact Or.inl (h1.trans h2)
    · refine Or.inr ⟨?_, h2c⟩
      unfold Float64.isZero at *
      rw [h1]; exact h2b
  · rcases h2 with h2 | ⟨_, h2c⟩
    · refine Or.inr ⟨h1a, ?_⟩
      unfold Float64.isZero at *
      rw [← h2]; exact h1b
    · exact Or.inr ⟨h1a, h2c⟩

theorem keyEq_symm (a b : Value) : keyEq a b = keyEq b a := by
  cases a <;> cases b <;> simp [keyEq, goEq_symm, eq_comm]

theorem keyEq_trans (a b c : Value) (hab : keyEq a b = true) (hbc : keyEq b c = true) :
    keyEq a c = true := by
  cases a <;> cases b <;> simp [keyEq] at hab <;> cases c <;> simp [keyEq] at hbc ⊢
  · rw [hab, hbc]
  · exact goEq_trans _ _ _ hab hbc

theorem keyEq_false_of_left (a b c : Value) (hab : keyEq a b = true)
    (hac : keyEq a c = false) : keyEq b c = false := by
  cases h : keyEq b c with
  | false => rfl
  | true => rw [keyEq_trans a b c hab h] at hac; cases hac

theorem mapaccess_mapUpdate (m : List (Value × Value)) (key v k' : Value) :
    mapaccess (mapUpdate m key v) k' = if keyEq key k' then some v else mapaccess m k' := by
  induction m with
  | nil => simp [mapUpdate, mapaccess]
  | cons e rest ih =>
    obtain ⟨k0, v0⟩ := e
    cases h0 : keyEq k0 key with
    | true =>
      simp only [mapUpdate, h0, if_true, mapaccess]
      cases hk : keyEq key k' with
      | true => simp
      | false =>
        have : keyEq k0 k' = false := by
          cases h : keyEq k0 k' with
          | false => rfl
          | true =>
            have h1 : keyEq key k0 = true := by rw [keyEq_symm]; exact h0
            rw [keyEq_trans key k0 k' h1 h] at hk
            cases hk
        simp [this]
    | false =>
      simp only [mapUpdate, h0, mapaccess, ih]
      cases hk0 : keyEq k0 k' with
      | false => simp
      | true =>
        have : keyEq key k' = false := by
          cases h : keyEq key k' with
          | false => rfl
          | true =>
            have h1 : keyEq k' key = true := by rw [keyEq_symm]; exact h
            rw [keyEq_trans k0 k' key hk0 h1] at h0
            cases h0
        simp [this]

theorem mapaccess_writeAll (kvs : List (Value × Value)) (o : List (Value × Value)) (k' : Value) :
    mapaccess (writeAll o kvs) k' =
      match lastWrite kvs k' with
      | some w => some w
      | none => mapaccess o k' := by
  induction kvs generalizing o with
  | nil => rfl
  | cons kv rest ih =>
    obtain ⟨k, v⟩ := kv
    have hstep : writeAll o ((k, v) :: rest) = writeAll (mapUpdate o k v) rest := rfl
    rw [hstep, ih, lastWrite, mapaccess_mapUpdate]
    cases lastWrite rest k' with
    | some w => rfl
    | none =>
      cases keyEq k k' <;> simp

/-- On a map with pairwise different keys, a write leaves the entries with
another key and the written pair. -/
theorem mapUpdate_perm (m : List (Value × Value)) (key v : Value)
    (hm : m.Pairwise (fun e1 e2 => keyEq e1.1 e2.1 = false)) :
    (mapUpdate m key v).Perm ((key, v) :: m.filter (fun e => !keyEq e.1 key)) := by
  induction m with
  | nil => simp [mapUpdate]
  | cons e rest ih =>
    obtain ⟨k0, v0⟩ := e
    rw [List.pairwise_cons] at hm
    cases h0 : keyEq k0 key with
    | true =>
      have hfilter : rest.filter (fun e => !keyEq e.1 key) = rest := by
        apply List.filter_eq_self.mpr
        intro e he
        have h1 : keyEq k0 e.1 = false := hm.1 e he
        have h2 : keyEq key e.1 = false := keyEq_false_of_left k0 key e.1 h0 h1
        rw [keyEq_symm, h2]; rfl
      simp only [mapUpdate, h0, if_true]
      rw [List.filter_cons_of_neg (by simp [h0]), hfilter]
    | false =>
      simp only [mapUpdate, h0]
      rw [List.filter_cons_of_pos (by simp [h0])]
      exact ((ih hm.2).cons (k0, v0)).trans (List.Perm.swap _ _ _)

theorem mapUpdate_pairwise (m : List (Value × Value)) (key v : Value)
    (hm : m.Pairwise (fun e1 e2 => keyEq e1.1 e2.1 = false)) :
    (mapUpdate m key v).Pairwise (fun e1 e2 => keyEq e1.1 e2.1 = false) := by
  have hsymm : ∀ {x y : Value × Value}, keyEq x.1 y.1 = false → keyEq y.1 x.1 = false := by
    intro x y h; rw [keyEq_symm]; exact h
  refine ((mapUpdate_perm m key v hm).pairwise_iff hsymm).mpr ?_
  rw [List.pairwise_cons]
  constructor
  · intro e he
    have := (List.mem_filter.mp he).2
    simp only [Bool.not_eq_true'] at this
    rw [keyEq_symm]; exact this
  · exact hm.sublist (List.filter_sublist _)

theorem writeAll_pairwise (kvs : List (Value × Value)) (o : List (Value × Value))
    (ho : o.Pairwise (fun e1 e2 => keyEq e1.1 e2.1 = false)) :
    (writeAll o kvs).Pairwise (fun e1 e2 => keyEq e1.1 e2.1 = false) := by
  induction kvs generalizing o with
  | nil => exact ho
  | cons kv rest ih => exact ih _ (mapUpdate_pairwise o kv.1 kv.2 ho)

theorem writeAll_perm (kvs : List (Value × Value)) (o : List (Value × Value))
    (ho : o.Pairwise (fun e1 e2 => keyEq e1.1 e2.1 = false)) :
    (writeAll o kvs).Perm
      (o.filter (fun e => !kvs.any (fun kv => keyEq kv.1 e.1)) ++ lastOccurrences kvs) := by
  induction kvs generalizing o with
  | nil => simp [writeAll, lastOccurrences]
  | cons kv rest ih =>
    obtain ⟨k, v⟩ := kv
    have hstep : writeAll o ((k, v) :: rest) = writeAll (mapUpdate o k v) rest := rfl
    have hfilter : o.filter (fun e => !((k, v) :: rest).any (fun kv => keyEq kv.1 e.1)) =
        (o.filter (fun e => !keyEq e.1 k)).filter
          (fun e => !rest.any (fun kv => keyEq kv.1 e.1)) := by
      rw [List.filter_filter]
      apply List.filter_congr
      intro e _
      simp only [List.any_cons, Bool.not_or, keyEq_symm k e.1, Bool.and_comm]
    rw [hstep, hfilter]
    refine (ih _ (mapUpdate_pairwise o k v ho)).trans ?_
    refine (((mapUpdate_perm o k v ho).filter _).append_right _).trans ?_
    rw [lastOccurrences]
    cases hany : rest.any (fun kv => keyEq kv.1 k) with
    | true =>
      rw [List.filter_cons_of_neg (by simp [hany])]
      simp
    | false =>
      rw [List.filter_cons_of_pos (by simp [hany])]
      simp only [List.cons_append, Bool.false_eq_true, if_false]
      exact List.perm_middle.symm

theorem lastOccurrences_subset (kvs : List (Value × Value)) :
    ∀ e ∈ lastOccurrences kvs, e ∈ kvs := by
  induction kvs with
  | nil => intro e he; cases he
  | cons kv rest ih =>
    obtain ⟨k, v⟩ := kv
    intro e he
    rw [lastOccurrences] at he
    split at he
    · exact List.mem_cons_of_mem _ (ih e he)
    · rcases List.mem_cons.mp he with rfl | he
      · exact List.mem_cons_self _ _
      · exact List.mem_cons_of_mem _ (ih e he)

theorem lastOccurrences_covers (kvs : List (Value × Value)) :
    ∀ kv ∈ kvs, ∃ e ∈ lastOccurrences kvs, e.1 = kv.1 ∨ keyEq e.1 kv.1 = true := by
  induction kvs with
  | nil => intro kv hkv; cases hkv
  | cons p rest ih =>
    obtain ⟨k, v⟩ := p
    intro kv hkv
    rw [lastOccurrences]
    rcases List.mem_cons.mp hkv with rfl | hkv
    · cases hany : rest.any (fun q => keyEq q.1 k) with
      | true =>
        obtain ⟨q, hq, hqk⟩ := List.any_eq_true.mp hany
        obtain ⟨e, he, hek⟩ := ih q hq
        refine ⟨e, by simpa using he, Or.inr ?_⟩
        rcases hek with hek | hek
        · rw [hek]; exact hqk
        · exact keyEq_trans _ _ _ hek hqk
      | false => exact ⟨(k, v), by simp, Or.inl rfl⟩
    · obtain ⟨e, he, hek⟩ := ih kv hkv
      cases hany : rest.any (fun q => keyEq q.1 k) with
      | true => exact ⟨e, by simpa using he, hek⟩
      | false => exact ⟨e, by simp [he], hek⟩

/-! ### The `object` loop -/

theorem objectLoop_eq_writes (f : Option Node → Res Value) (cs : List Node)
    (o : List (Value × Value)) :
    objectLoop f cs o =
      match objectWrites f cs with
      | .val kvs => .val (.obj (writeAll o kvs))
      | .err e => .err e
      | .panicked => .panicked
      | .outOfFuel => .outOfFuel := by
  induction cs generalizing o with
  | nil => rfl
  | cons c rest ih =>
    rw [objectLoop, objectWrites]
    cases f (c.ChildByFieldName "key") with
    | val key =>
      dsimp only
      cases f (c.ChildByFieldName "value") with
      | val value =>
        dsimp only
        unfold mapassign
        cases hh : key.hashable with
        | true =>
          simp only [if_true]
          rw [ih]
          cases objectWrites f rest <;> rfl
        | false => simp
      | err e => rfl
      | panicked => rfl
      | outOfFuel => rfl
    | err e => rfl
    | panicked => rfl
    | outOfFuel => rfl

theorem objectWrites_val (f : Option Node → Res Value) (cs : List Node)
    (kvs : List (Value × Value))
    (h : List.Forall₂ (fun c kv => f (c.ChildByFieldName "key") = .val kv.1 ∧
      f (c.ChildByFieldName "value") = .val kv.2 ∧ kv.1.hashable = true) cs kvs) :
    objectWrites f cs = .val kvs := by
  induction h with
  | nil => rfl
  | cons hc _ ih =>
    obtain ⟨hk, hv, hh⟩ := hc
    rw [objectWrites, hk, hv]
    simp only [hh, if_true, ih]

theorem objectWrites_append (f : Option Node → Res Value) (xs ys : List Node) :
    objectWrites f (xs ++ ys) =
      match objectWrites f xs with
      | .val a =>
        (match objectWrites f ys with
        | .val b => .val (a ++ b)
        | .err e => .err e
        | .panicked => .panicked
        | .outOfFuel => .outOfFuel)
      | .err e => .err e
      | .panicked => .panicked
      | .outOfFuel => .outOfFuel := by
  induction xs with
  | nil =>
    simp only [List.nil_append, objectWrites]
    cases objectWrites f ys <;> rfl
  | cons c rest ih =>
    rw [List.cons_append, objectWrites, objectWrites]
    cases f (c.ChildByFieldName "key") with
    | val key =>
      dsimp only
      cases f (c.ChildByFieldName "value") with
      | val value =>
        dsimp only
        cases key.hashable with
        | true =>
          simp only [if_true, ih]
          cases objectWrites f rest with
          | val a => dsimp only; cases objectWrites f ys <;> rfl
          | err e => rfl
          | panicked => rfl
          | outOfFuel => rfl
        | false => rfl
      | err e => rfl
      | panicked => rfl
      | outOfFuel => rfl
    | err e => rfl
    | panicked => rfl
    | outOfFuel => rfl

theorem lastWrite_append (a b : List (Value × Value)) (key : Value) :
    lastWrite (a ++ b) key =
      match lastWrite b key with
      | some w => some w
      | none => lastWrite a key := by
  induction a with
  | nil => simp only [List.nil_append, lastWrite]; cases lastWrite b key <;> rfl
  | cons kv rest ih =>
    obtain ⟨k, v⟩ := kv
    rw [List.cons_append, lastWrite, ih, lastWrite]
    cases lastWrite b key <;> rfl

/-- A node of a type outside the four cases of the switch yields `nil, nil`. -/
theorem createObject_other (lib : Lib) (n : Node) (source : String)
    (h1 : n.Type ≠ "array") (h2 : n.Type ≠ "object") (h3 : n.Type ≠ "string")
    (h4 : n.Type ≠ "number") : createObject lib (some n) source = .val .null := by
  rw [createObject_some, if_neg h1, if_neg h2, if_neg h3, if_neg h4]

theorem createObject_object (lib : Lib) (n : Node) (source : String)
    (htype : n.Type = "object") :
    createObject lib (some n) source =
      match objectWrites (fun c => createObject lib c source) n.namedChildren with
      | .val kvs => .val (.obj (writeAll [] kvs))
      | .err e => .err e
      | .panicked => .panicked
      | .outOfFuel => .outOfFuel := by
  rw [createObject_some, if_neg (by rw [htype]; decide), if_pos htype, objectLoop_eq_writes]

/-! ### The stack loop -/

theorem appendTexts_eq (cs : List HtmlNode) (scripts : List String) :
    appendTexts cs scripts = scripts ++ textData cs := by
  induction cs generalizing scripts with
  | nil => simp [appendTexts, textData]
  | cons c rest ih =>
    by_cases hc : c.Type = NodeType.TextNode
    · simp only [appendTexts, hc, if_true, ih, textData, List.append_assoc]
      simp [hc]
    · simp only [appendTexts, hc, if_false, ih, textData]
      simp [hc]

theorem pushAll_eq (xs stack : List HtmlNode) : pushAll xs stack = xs.reverse ++ stack := by
  induction xs generalizing stack with
  | nil => rfl
  | cons x rest ih => simp [pushAll, ih]

theorem sizeList_append (xs ys : List HtmlNode) :
    sizeList (xs ++ ys) = sizeList xs + sizeList ys := by
  induction xs with
  | nil => simp [sizeList]
  | cons x rest ih => simp [sizeList, ih, Nat.add_assoc]

theorem preorderScriptsList_append (xs ys : List HtmlNode) :
    preorderScriptsList (xs ++ ys) = preorderScriptsList xs ++ preorderScriptsList ys := by
  induction xs with
  | nil => simp [preorderScriptsList]
  | cons x rest ih => simp [preorderScriptsList, ih]

/-- With a budget of at least the number of nodes under the stack, the loop
ends and has appended the reference result of the stacked trees, top first. -/
theorem stackLoop_eq :
    ∀ (fuel : Nat) (stack : List HtmlNode) (scripts : List String),
      sizeList stack ≤ fuel →
      stackLoop fuel stack scripts = some (scripts ++ preorderScriptsList stack) := by
  intro fuel
  induction fuel with
  | zero =>
    intro stack scripts h
    cases stack with
    | nil => simp [stackLoop, preorderScriptsList]
    | cons n rest =>
      cases n with
      | mk t d cs =>
        rw [sizeList, HtmlNode.size] at h
        omega
  | succ fuel ih =>
    intro stack scripts h
    cases stack with
    | nil => simp [stackLoop, preorderScriptsList]
    | cons n rest =>
      cases n with
      | mk t d cs =>
        rw [sizeList, HtmlNode.size] at h
        rw [stackLoop, preorderScriptsList, preorderScripts]
        simp only [HtmlNode.Type, HtmlNode.Data, HtmlNode.children]
        by_cases hs : t = NodeType.ElementNode ∧ d = "script"
        · rw [if_pos hs, if_pos hs, ih _ _ (by omega), appendTexts_eq, List.append_assoc]
        · rw [if_neg hs, if_neg hs, pushAll_eq, List.reverse_reverse,
            ih _ _ (by rw [sizeList_append]; omega), preorderScriptsList_append]

mutual
theorem preorderScripts_of_no_script :
    ∀ n : HtmlNode, hasScript n = false → preorderScripts n = []
  | .mk t d cs, h => by
    rw [hasScript] at h
    simp only [Bool.or_eq_false_iff, decide_eq_false_iff_not] at h
    rw [preorderScripts, if_neg h.1]
    exact preorderScriptsList_of_no_script cs h.2
theorem preorderScriptsList_of_no_script :
    ∀ cs : List HtmlNode, hasScriptList cs = false → preorderScriptsList cs = []
  | [], _ => by rw [preorderScriptsList]
  | c :: cs, h => by
    rw [hasScriptList] at h
    simp only [Bool.or_eq_false_iff] at h
    rw [preorderScriptsList, preorderScripts_of_no_script c h.1,
      preorderScriptsList_of_no_script cs h.2]
    rfl
end

/-! ### Predicate filtering -/

theorem FilterPredicates_pattern (nm v : Node) (source : String) :
    (FilterPredicates { Captures := [{ Index := 0, Node := nm }, { Index := 1, Node := v }] }
        source).Captures =
      if nm.Content source = "ranks" then
        [{ Index := 0, Node := nm }, { Index := 1, Node := v }]
      else [] := by
  have h1 : ("var-value" : String) ≠ "var-name" := by decide
  unfold FilterPredicates
  rw [compiledQuery_eq]
  by_cases h : nm.Content source = "ranks"
  · simp [predicateHolds, CaptureNameForId_zero, CaptureNameForId_one, h1, h]
  · simp [predicateHolds, CaptureNameForId_zero, CaptureNameForId_one, h1, h]

theorem isVarValue_pattern (nm v : Node) (c : QueryCapture)
    (hc : c ∈ [({ Index := 0, Node := nm } : QueryCapture), { Index := 1, Node := v }])
    (hv : isVarValue c = true) : c.Node = v := by
  simp only [List.mem_cons, List.mem_singleton, List.not_mem_nil, or_false] at hc
  rcases hc with rfl | rfl
  · have h0 : CaptureNameForId 0 ≠ "var-value" := by
      rw [CaptureNameForId_zero]; decide
    simp only [isVarValue, decide_eq_true_eq] at hv
    exact absurd hv h0
  · rfl

mutual
theorem patternMatches_shape :
    ∀ (n : Node), ∀ m ∈ patternMatches n,
      ∃ nm v, m.Captures = [{ Index := 0, Node := nm }, { Index := 1, Node := v }]
  | .mk type s e named field cs, m, hm => by
    rw [patternMatches] at hm
    rcases List.mem_append.mp hm with hm | hm
    · split at hm
      · split at hm
        · rw [List.mem_singleton] at hm
          exact ⟨_, _, by rw [hm]⟩
        · cases hm
      · cases hm
    · exact patternMatchesList_shape cs m hm
theorem patternMatchesList_shape :
    ∀ (cs : List Node), ∀ m ∈ patternMatchesList cs,
      ∃ nm v, m.Captures = [{ Index := 0, Node := nm }, { Index := 1, Node := v }]
  | [], m, hm => by rw [patternMatchesList] at hm; cases hm
  | c :: cs, m, hm => by
    rw [patternMatchesList] at hm
    rcases List.mem_append.mp hm with hm | hm
    · exact patternMatches_shape c m hm
    · exact patternMatchesList_shape cs m hm
end

/-- The node of the first kept `var-value` capture of a script is the array of
a match whose identifier reads `ranks`. -/
theorem firstRanksCapture_named (lib : Lib)
    (hshape : ∀ root, ∀ m ∈ lib.NextMatch root,
      ∃ nm v, m.Captures = [{ Index := 0, Node := nm }, { Index := 1, Node := v }])
    (s : String) (node : Node) (h : firstRanksCapture lib s = some node) :
    ∃ root, lib.ParseCtx s = .ok root ∧ ∃ m ∈ lib.NextMatch root, ∃ nm,
      m.Captures = [{ Index := 0, Node := nm }, { Index := 1, Node := node }] ∧
      nm.Content s = "ranks" := by
  unfold firstRanksCapture at h
  cases hp : lib.ParseCtx s with
  | error e => rw [hp] at h; cases h
  | ok root =>
    rw [hp] at h
    dsimp only at h
    cases hf : (filteredCaptures lib s root).find? isVarValue with
    | none => rw [hf] at h; cases h
    | some c =>
      rw [hf] at h
      simp only [Option.map_some', Option.some.injEq] at h
      have hmem : c ∈ filteredCaptures lib s root := List.mem_of_find?_eq_some hf
      have hv : isVarValue c = true := List.find?_some hf
      unfold filteredCaptures at hmem
      obtain ⟨m, hm, hcm⟩ := List.mem_flatMap.mp hmem
      obtain ⟨nm, v, hcap⟩ := hshape root m hm
      have hm' : m = { Captures := [{ Index := 0, Node := nm }, { Index := 1, Node := v }] } := by
        cases m; simp only at hcap; rw [hcap]
      rw [hm', FilterPredicates_pattern] at hcm
      by_cases hr : nm.Content s = "ranks"
      · rw [if_pos hr] at hcm
        have hnode : c.Node = v := isVarValue_pattern nm v c hcm hv
        refine ⟨root, rfl, m, hm, nm, ?_, hr⟩
        rw [hcap, ← h, hnode]
      · rw [if_neg hr] at hcm
        cases hcm

/-! ## The claims -/

/-- C1 (locator, first match wins).  When `s` is the first script of the list
that parses and keeps a `var-value` capture after predicate filtering, the
search returns the materialization of the first such capture of `s` (match
order, then capture order), and the scripts after `s` do not change the
result. -/
theorem first_match_wins (lib : Lib) (pre post : List String) (s : String) (node : Node)
    (hpre : ∀ p ∈ pre, firstRanksCapture lib p = none)
    (hs : firstRanksCapture lib s = some node) :
    searchScripts lib (pre ++ [s] ++ post) = buildRanks lib (some node) s ∧
      searchScripts lib (pre ++ [s] ++ post) = searchScripts lib (pre ++ [s]) := by
  have h1 : searchScripts lib (pre ++ [s] ++ post) = buildRanks lib (some node) s := by
    rw [List.append_assoc, searchScripts_append_none lib pre _ hpre]
    exact searchScripts_cons_some lib s _ node hs
  have h2 : searchScripts lib (pre ++ [s]) = buildRanks lib (some node) s := by
    rw [searchScripts_append_none lib pre _ hpre]
    exact searchScripts_cons_some lib s _ node hs
  exact ⟨h1, h1.trans h2.symm⟩

/-- Witness of C1: two scripts without a capture, then `otherScript`, then a
later script that would match too. -/
theorem first_match_wins_witness :
    searchScripts sampleLib (["if (", plainScript] ++ [otherScript] ++ [ranksScript]) =
        buildRanks sampleLib (some (digitArray 28)) otherScript ∧
      searchScripts sampleLib (["if (", plainScript] ++ [otherScript] ++ [ranksScript]) =
        searchScripts sampleLib (["if (", plainScript] ++ [otherScript]) :=
  first_match_wins sampleLib ["if (", plainScript] [ranksScript] otherScript (digitArray 28)
    (by
      intro p hp
      simp only [List.mem_cons, List.mem_singleton, List.not_mem_nil, or_false] at hp
      rcases hp with rfl | rfl <;> rfl)
    (by rfl)

/-- C2 (RanksNotFound).  For every list of scripts, the empty list included,
the search returns `ErrRanksNotFound` exactly when no script parses and keeps a
`var-value` capture after predicate filtering. -/
theorem ranks_not_found_iff (lib : Lib) (scripts : List String) :
    searchScripts lib scripts = .err .ErrRanksNotFound ↔
      ∀ s ∈ scripts, firstRanksCapture lib s = none := by
  induction scripts with
  | nil => simp [searchScripts]
  | cons s rest ih =>
    cases hf : firstRanksCapture lib s with
    | none =>
      rw [searchScripts_cons_none lib s rest hf, ih]
      constructor
      · intro h t ht
        rcases List.mem_cons.mp ht with rfl | ht
        · exact hf
        · exact h t ht
      · intro h t ht
        exact h t (List.mem_cons_of_mem _ ht)
    | some node =>
      rw [searchScripts_cons_some lib s rest node hf]
      constructor
      · intro h
        exact absurd h (buildRanks_ne_ranksNotFound lib _ _)
      · intro h
        have := h s (List.mem_cons_self _ _)
        rw [hf] at this
        cases this

/-- Witness of C2: a script the parser refuses and a script without a match. -/
theorem ranks_not_found_iff_witness :
    searchScripts sampleLib ["if (", plainScript] = .err .ErrRanksNotFound :=
  (ranks_not_found_iff sampleLib ["if (", plainScript]).mpr (by
    intro p hp
    simp only [List.mem_cons, List.mem_singleton, List.not_mem_nil, or_false] at hp
    rcases hp with rfl | rfl <;> rfl)

/-- C3 (parse failures are not fatal).  Removing the scripts the parser refuses,
and also removing those that parse without keeping a `var-value` capture,
leaves the result of the search unchanged; when a single script of the list
keeps such a capture, the result is the materialization of that script's
capture, whatever the other scripts are. -/
theorem parse_failures_skipped (lib : Lib) (scripts : List String) :
    searchScripts lib scripts =
        searchScripts lib (scripts.filter (fun s => !parseFails lib s)) ∧
      searchScripts lib scripts =
        searchScripts lib
          (scripts.filter (fun s => !parseFails lib s && !noRanksMatch lib s)) ∧
      ∀ (pre post : List String) (s : String) (node : Node),
        scripts = pre ++ s :: post →
        (∀ p ∈ pre ++ post, parseFails lib p = true ∨ noRanksMatch lib p = true) →
        firstRanksCapture lib s = some node →
        searchScripts lib scripts = buildRanks lib (some node) s := by
  refine ⟨?_, ?_, ?_⟩
  · apply searchScripts_filter
    intro s _ hk
    apply firstRanksCapture_of_parseFails
    simpa using hk
  · apply searchScripts_filter
    intro s _ hk
    simp only [Bool.and_eq_false_imp, Bool.not_eq_true', Bool.not_eq_false'] at hk
    cases hp : parseFails lib s with
    | true => exact firstRanksCapture_of_parseFails lib s hp
    | false => exact firstRanksCapture_of_noRanksMatch lib s (by simpa using hk hp)
  · intro pre post s node hsplit hothers hs
    have hnone : ∀ p ∈ pre ++ post, firstRanksCapture lib p = none := by
      intro p hp
      rcases hothers p hp with h | h
      · exact firstRanksCapture_of_parseFails lib p h
      · exact firstRanksCapture_of_noRanksMatch lib p h
    rw [hsplit, searchScripts_append_none lib pre _
      (fun p hp => hnone p (List.mem_append_left _ hp))]
    exact searchScripts_cons_some lib s _ node hs

/-- Witness of C3: one script declaring `ranks` between a script that does not
parse and a script without a match. -/
theorem parse_failures_skipped_witness :
    ["if (", ranksScript, plainScript] = ["if ("] ++ ranksScript :: [plainScript] ∧
      (∀ p ∈ ["if ("] ++ [plainScript],
        parseFails sampleLib p = true ∨ noRanksMatch sampleLib p = true) ∧
      firstRanksCapture sampleLib ranksScript = some (digitArray 12) ∧
      searchScripts sampleLib ["if (", ranksScript, plainScript] =
        buildRanks sampleLib (some (digitArray 12)) ranksScript :=
  have h1 : ["if (", ranksScript, plainScript] = ["if ("] ++ ranksScript :: [plainScript] := rfl
  have h2 : ∀ p ∈ ["if ("] ++ [plainScript],
      parseFails sampleLib p = true ∨ noRanksMatch sampleLib p = true := by
    intro p hp
    simp only [List.singleton_append, List.mem_cons, List.mem_singleton, List.not_mem_nil,
      or_false] at hp
    rcases hp with rfl | rfl
    · exact Or.inl (by rfl)
    · exact Or.inr (by rfl)
  have h3 : firstRanksCapture sampleLib ranksScript = some (digitArray 12) := by rfl
  ⟨h1, h2, h3,
    (parse_failures_skipped sampleLib ["if (", ranksScript, plainScript]).2.2
      ["if ("] [plainScript] ranksScript (digitArray 12) h1 h2 h3⟩

/-- C4 (array materialization).  For a node of type `array` whose named children
all materialize to a value, `createObject` returns a sequence with one element
per named child, the i-th element being the materialization of the i-th named
child; with no named child the result is the empty sequence. -/
theorem array_materialization (lib : Lib) (n : Node) (source : String)
    (htype : n.Type = "array")
    (hch : ∀ c ∈ n.namedChildren, ∃ v, createObject lib (some c) source = .val v) :
    ∃ vs, createObject lib (some n) source = .val (.arr vs) ∧
      vs.length = n.NamedChildCount ∧
      (∀ (i : Nat) (c : Node), n.NamedChild i = some c →
        ∃ v, vs[i]? = some v ∧ createObject lib (some c) source = .val v) ∧
      (n.NamedChildCount = 0 → vs = []) := by
  obtain ⟨vs, hvs⟩ := forall₂_of_forall_exists
    (fun c v => createObject lib (some c) source = .val v) n.namedChildren hch
  refine ⟨vs, ?_, ?_, ?_, ?_⟩
  · rw [createObject_some, if_pos htype]
    have := arrayLoop_val (fun c => createObject lib c source) n.namedChildren vs hvs []
    simpa using this
  · exact hvs.length_eq.symm
  · intro i c hc
    exact forall₂_getElem? _ _ _ hvs i c hc
  · intro h0
    have hlen : vs.length = 0 := by rw [← hvs.length_eq]; exact h0
    exact List.length_eq_zero.mp hlen

/-- Witness of C4: the array `[2]` of `ranksScript`. -/
theorem array_materialization_witness :
    ∃ vs, createObject sampleLib (some (digitArray 12)) ranksScript = .val (.arr vs) ∧
      vs.length = (digitArray 12).NamedChildCount ∧
      (∀ (i : Nat) (c : Node), (digitArray 12).NamedChild i = some c →
        ∃ v, vs[i]? = some v ∧ createObject sampleLib (some c) ranksScript = .val v) ∧
      ((digitArray 12).NamedChildCount = 0 → vs = []) :=
  array_materialization sampleLib (digitArray 12) ranksScript (by rfl)
    (by
      intro c hc
      have hc' : c = leaf "number" 13 14 true none := by
        simpa [digitArray, Node.namedChildren, Node.children, Node.IsNamed, leaf] using hc
      subst hc'
      exact ⟨.num ⟨0x4000000000000000⟩, by rfl⟩)

/-- C5 (object materialization).  For a node of type `object` whose named
children all have a key and a value that materialize, the key to a value Go can
hash, `createObject` returns a mapping whose entries are exactly the pairs that
no later pair overrides: every entry is a materialized pair, every materialized
key has an entry, a key maps to the value of the last pair carrying it, no two
entries share a key, and there are as many entries as distinct keys. -/
theorem object_materialization (lib : Lib) (n : Node) (source : String)
    (kvs : List (Value × Value)) (htype : n.Type = "object")
    (hpairs : List.Forall₂ (fun c kv =>
      createObject lib (c.ChildByFieldName "key") source = .val kv.1 ∧
      createObject lib (c.ChildByFieldName "value") source = .val kv.2 ∧
      kv.1.hashable = true) n.namedChildren kvs) :
    ∃ m, createObject lib (some n) source = .val (.obj m) ∧
      (∀ e, e ∈ m ↔ e ∈ lastOccurrences kvs) ∧
      (∀ e ∈ m, e ∈ kvs) ∧
      (∀ kv ∈ kvs, ∃ e ∈ m, e.1 = kv.1 ∨ keyEq e.1 kv.1 = true) ∧
      (∀ key, mapaccess m key = lastWrite kvs key) ∧
      m.Pairwise (fun e1 e2 => keyEq e1.1 e2.1 = false) ∧
      m.length = (lastOccurrences kvs).length := by
  have hres : createObject lib (some n) source = .val (.obj (writeAll [] kvs)) := by
    rw [createObject_some, if_neg (by rw [htype]; decide), if_pos htype,
      objectLoop_eq_writes,
      objectWrites_val (fun c => createObject lib c source) n.namedChildren kvs hpairs]
  have hperm : (writeAll [] kvs).Perm (lastOccurrences kvs) := by
    simpa using writeAll_perm kvs [] List.Pairwise.nil
  refine ⟨writeAll [] kvs, hres, fun e => hperm.mem_iff, ?_, ?_, ?_, ?_, hperm.length_eq⟩
  · intro e he
    exact lastOccurrences_subset kvs e (hperm.mem_iff.mp he)
  · intro kv hkv
    obtain ⟨e, he, hek⟩ := lastOccurrences_covers kvs kv hkv
    exact ⟨e, hperm.mem_iff.mpr he, hek⟩
  · intro key
    rw [mapaccess_writeAll]
    cases lastWrite kvs key <;> rfl
  · exact writeAll_pairwise kvs [] List.Pairwise.nil

/-- Witness of C5: the object literal of `dupSource`, whose key `"a"` occurs
twice. -/
theorem object_materialization_witness :
    ∃ m, createObject sampleLib (some dupObject) dupSource = .val (.obj m) ∧
      (∀ e, e ∈ m ↔ e ∈ lastOccurrences
        [(.str "\"a\"", .num ⟨0x3FF0000000000000⟩), (.str "\"b\"", .num ⟨0x4000000000000000⟩),
          (.str "\"a\"", .num ⟨0⟩)]) ∧
      (∀ e ∈ m, e ∈ [(Value.str "\"a\"", Value.num ⟨0x3FF0000000000000⟩),
        (.str "\"b\"", .num ⟨0x4000000000000000⟩), (.str "\"a\"", .num ⟨0⟩)]) ∧
      (∀ kv ∈ [(Value.str "\"a\"", Value.num ⟨0x3FF0000000000000⟩),
        (.str "\"b\"", .num ⟨0x4000000000000000⟩), (.str "\"a\"", .num ⟨0⟩)],
        ∃ e ∈ m, e.1 = kv.1 ∨ keyEq e.1 kv.1 = true) ∧
      (∀ key, mapaccess m key = lastWrite
        [(.str "\"a\"", .num ⟨0x3FF0000000000000⟩), (.str "\"b\"", .num ⟨0x4000000000000000⟩),
          (.str "\"a\"", .num ⟨0⟩)] key) ∧
      m.Pairwise (fun e1 e2 => keyEq e1.1 e2.1 = false) ∧
      m.length = (lastOccurrences
        [(.str "\"a\"", .num ⟨0x3FF0000000000000⟩), (.str "\"b\"", .num ⟨0x4000000000000000⟩),
          (.str "\"a\"", .num ⟨0⟩)]).length :=
  object_materialization sampleLib dupObject dupSource
    [(.str "\"a\"", .num ⟨0x3FF0000000000000⟩), (.str "\"b\"", .num ⟨0x4000000000000000⟩),
      (.str "\"a\"", .num ⟨0⟩)]
    (by rfl)
    (by
      show List.Forall₂ _ [pairNode 1, pairNode 7, pairNode 13] _
      exact List.Forall₂.cons ⟨by rfl, by rfl, by rfl⟩
        (List.Forall₂.cons ⟨by rfl, by rfl, by rfl⟩
          (List.Forall₂.cons ⟨by rfl, by rfl, by rfl⟩ List.Forall₂.nil)))

/-- C6 (string passthrough).  For a node of type `string`, `createObject`
succeeds with the node's source text unchanged, the bytes of the source from
`StartByte` to `EndByte`: the literal `"a"` gives the three characters quote,
a, quote, a backslash escape stays as written, and in
`var ranks = ["é", "b", 2]` the string at bytes 19 to 22 gives `"b"` and the
string at bytes 13 to 17 gives `"é"`. -/
theorem string_passthrough (lib : Lib) (source : String) :
    (∀ n : Node, n.Type = "string" →
        createObject lib (some n) source = .val (.str (n.Content source))) ∧
      createObject lib (some (leaf "string" 0 3 true none)) "\"a\"" =
        .val (.str "\"a\"") ∧
      ("\"a\"").length = 3 ∧
      createObject lib (some (leaf "string" 4 10 true none)) "x = \"a\\nb\";" =
        .val (.str "\"a\\nb\"") ∧
      createObject lib (some (leaf "string" 19 22 true none)) accentScript =
        .val (.str "\"b\"") ∧
      createObject lib (some (leaf "string" 13 17 true none)) accentScript =
        .val (.str "\"é\"") := by
  have hgen : ∀ (src : String) (n : Node), n.Type = "string" →
      createObject lib (some n) src = .val (.str (n.Content src)) := by
    intro src n h
    rw [createObject_some, if_neg (by rw [h]; decide), if_neg (by rw [h]; decide), if_pos h]
  refine ⟨hgen source, ?_, by decide, ?_, ?_, ?_⟩
  · rw [hgen _ _ (by rfl)]; rfl
  · rw [hgen _ _ (by rfl)]; rfl
  · rw [hgen _ _ (by rfl)]; rfl
  · rw [hgen _ _ (by rfl)]; rfl

/-- Witness of C6: the string after the two-byte character in `accentScript`. -/
theorem string_passthrough_witness :
    (leaf "string" 19 22 true none).Type = "string" ∧
      (leaf "string" 19 22 true none).Content accentScript = "\"b\"" ∧
      createObject goLib (some (leaf "string" 19 22 true none)) accentScript =
        .val (.str ((leaf "string" 19 22 true none).Content accentScript)) :=
  ⟨by rfl, by rfl, (string_passthrough goLib accentScript).1 _ (by rfl)⟩

/-- C8 (degrade to null).  A node whose type is none of `array`, `object`,
`string`, `number` materializes to the absent value with no error, whatever its
children are.  An object pair whose value is such a node writes its key with
the absent value: where the object without that pair fails, the object fails
the same way; where it yields a mapping, the object yields a mapping that
agrees with it on every other key and maps the pair's key to the absent value
unless a later pair writes that key again; `{"x": someVar}` yields the mapping
of `"x"` to the absent value. -/
theorem degrade_to_null (lib : Lib) (source : String) :
    (∀ n : Node, n.Type ≠ "array" → n.Type ≠ "object" → n.Type ≠ "string" →
        n.Type ≠ "number" → createObject lib (some n) source = .val .null) ∧
      (∀ (n n' c vn : Node) (pre post : List Node) (k : Value),
        n.Type = "object" → n.namedChildren = pre ++ c :: post →
        n'.Type = "object" → n'.namedChildren = pre ++ post →
        createObject lib (c.ChildByFieldName "key") source = .val k → k.hashable = true →
        c.ChildByFieldName "value" = some vn →
        vn.Type ≠ "array" → vn.Type ≠ "object" → vn.Type ≠ "string" → vn.Type ≠ "number" →
        (∀ r, createObject lib (some n') source = r → (∀ m', r ≠ .val (.obj m')) →
          createObject lib (some n) source = r) ∧
        (∀ m', createObject lib (some n') source = .val (.obj m') →
          ∃ m, createObject lib (some n) source = .val (.obj m) ∧
            (∀ k', keyEq k k' = false → mapaccess m k' = mapaccess m' k') ∧
            (∀ np mp, np.Type = "object" → np.namedChildren = post →
              createObject lib (some np) source = .val (.obj mp) →
              mapaccess mp k = none → keyEq k k = true → mapaccess m k = some .null))) ∧
      createObject lib (some someVarObject) "\x7b\"x\": someVar\x7d" =
        .val (.obj [(.str "\"x\"", .null)]) := by
  refine ⟨fun n h1 h2 h3 h4 => createObject_other lib n source h1 h2 h3 h4, ?_, ?_⟩
  · intro n n' c vn pre post k hn hch hn' hch' hkey hhash hval h1 h2 h3 h4
    have hv : createObject lib (c.ChildByFieldName "value") source = .val .null := by
      rw [hval]; exact createObject_other lib vn source h1 h2 h3 h4
    have hc : objectWrites (fun x => createObject lib x source) (c :: post) =
        match objectWrites (fun x => createObject lib x source) post with
        | .val b => .val ((k, .null) :: b)
        | .err e => .err e
        | .panicked => .panicked
        | .outOfFuel => .outOfFuel := by
      rw [objectWrites]
      simp only [hkey, hv, hhash, if_true]
    have hN : createObject lib (some n) source = _ := createObject_object lib n source hn
    have hN' : createObject lib (some n') source = _ := createObject_object lib n' source hn'
    rw [hch, objectWrites_append, hc] at hN
    rw [hch', objectWrites_append] at hN'
    constructor
    · intro r hr hnot
      rw [hN'] at hr
      rw [hN]
      cases hA : objectWrites (fun x => createObject lib x source) pre with
      | val a =>
        rw [hA] at hr
        cases hB : objectWrites (fun x => createObject lib x source) post with
        | val b =>
          rw [hB] at hr
          exact absurd hr.symm (hnot _)
        | err e => rw [hB] at hr; exact hr
        | panicked => rw [hB] at hr; exact hr
        | outOfFuel => rw [hB] at hr; exact hr
      | err e => rw [hA] at hr; exact hr
      | panicked => rw [hA] at hr; exact hr
      | outOfFuel => rw [hA] at hr; exact hr
    · intro m' hm'
      rw [hN'] at hm'
      rw [hN]
      cases hA : objectWrites (fun x => createObject lib x source) pre with
      | val a =>
        rw [hA] at hm'
        cases hB : objectWrites (fun x => createObject lib x source) post with
        | val b =>
          rw [hB] at hm'
          simp only [Res.val.injEq, Value.obj.injEq] at hm'
          refine ⟨writeAll [] (a ++ (k, .null) :: b), rfl, ?_, ?_⟩
          · intro k' hk'
            rw [← hm', mapaccess_writeAll, mapaccess_writeAll, lastWrite_append,
              lastWrite_append, lastWrite]
            cases lastWrite b k' with
            | some w => rfl
            | none => simp [hk']
          · intro np mp hnp hnpch hnpres hnone hkk
            rw [createObject_object lib np source hnp, hnpch, hB] at hnpres
            simp only [Res.val.injEq, Value.obj.injEq] at hnpres
            rw [← hnpres, mapaccess_writeAll] at hnone
            have hb : lastWrite b k = none := by
              cases hl : lastWrite b k with
              | none => rfl
              | some w => rw [hl] at hnone; cases hnone
            rw [mapaccess_writeAll, lastWrite_append, lastWrite, hb]
            simp [hkk]
        | err e => rw [hB] at hm'; cases hm'
        | panicked => rw [hB] at hm'; cases hm'
        | outOfFuel => rw [hB] at hm'; cases hm'
      | err e => rw [hA] at hm'; cases hm'
      | panicked => rw [hA] at hm'; cases hm'
      | outOfFuel => rw [hA] at hm'; cases hm'
  · rfl

/-- Witness of C8: the object `{"a":1,"x":y}` against the object `{"a":1}`. -/
theorem degrade_to_null_witness :
    ∃ m, createObject sampleLib (some identObject) identSource = .val (.obj m) ∧
      (∀ k', keyEq (.str "\"x\"") k' = false →
        mapaccess m k' = mapaccess [(.str "\"a\"", .num ⟨0x3FF0000000000000⟩)] k') ∧
      (∀ np mp, np.Type = "object" → np.namedChildren = [] →
        createObject sampleLib (some np) identSource = .val (.obj mp) →
        mapaccess mp (.str "\"x\"") = none → keyEq (.str "\"x\"") (.str "\"x\"") = true →
        mapaccess m (.str "\"x\"") = some .null) :=
  ((degrade_to_null sampleLib identSource).2.1 identObject identObjectRest identPair
    (leaf "identifier" 11 12 true (some "value")) [pairNode 1] [] (.str "\"x\"")
    (by rfl) (by rfl) (by rfl) (by rfl) (by rfl) (by rfl) (by rfl)
    (by decide) (by decide) (by decide) (by decide)).2
    [(.str "\"a\"", .num ⟨0x3FF0000000000000⟩)] (by rfl)

/-- C9 (script collector).  On every DOM tree the stack traversal ends within
its budget of one iteration per node, and with any larger budget, and returns
the list of the recursive pre-order reference definition; a tree without a
`script` element gives the empty list. -/
theorem collectScripts_eq_preorder (doc : HtmlNode) :
    collectScripts doc = some (preorderScripts doc) ∧
      (∀ fuel, doc.size ≤ fuel → stackLoop fuel [doc] [] = some (preorderScripts doc)) ∧
      (hasScript doc = false → collectScripts doc = some []) := by
  have hloop : ∀ fuel, doc.size ≤ fuel →
      stackLoop fuel [doc] [] = some (preorderScripts doc) := by
    intro fuel hfuel
    have h := stackLoop_eq fuel [doc] [] (by simpa [sizeList] using hfuel)
    simpa [preorderScriptsList] using h
  refine ⟨hloop _ (le_refl _), hloop, ?_⟩
  intro hno
  have h := hloop _ (le_refl doc.size)
  rw [preorderScripts_of_no_script doc hno] at h
  exact h

/-- Witness of C9: a document without scripts. -/
theorem collectScripts_eq_preorder_witness :
    hasScript plainDoc = false ∧ collectScripts plainDoc = some [] :=
  ⟨by rfl, (collectScripts_eq_preorder plainDoc).2.2 (by rfl)⟩

theorem matchNode_compiled (d : Node) (cs : List QueryCapture) :
    matchNode ["var-name", "var-value"]
        (.node none "variable_declarator" none
          [.node (some "name") "identifier" (some "var-name") [],
           .node (some "value") "array" (some "var-value") []]) d = some cs ↔
      ∃ nm v, d.Type = "variable_declarator" ∧ d.ChildByFieldName "name" = some nm ∧
        nm.Type = "identifier" ∧ d.ChildByFieldName "value" = some v ∧ v.Type = "array" ∧
        cs = [{ Index := 0, Node := nm }, { Index := 1, Node := v }] := by
  have hid0 : captureId ["var-name", "var-value"] "var-name" = 0 := by rfl
  have hid1 : captureId ["var-name", "var-value"] "var-value" = 1 := by rfl
  simp only [matchNode, matchChildren, Pattern.field, hid0, hid1]
  constructor
  · intro h
    split at h
    · rename_i hty
      split at h
      · rename_i cs' hcs
        split at hcs
        · cases hcs
        · rename_i nm hnm
          split at hcs
          · rename_i a b ha hb
            split at ha
            · rename_i hnty
              split at hb
              · cases hb
              · rename_i v hv
                split at hb
                · rename_i a2 b2 ha2 hb2
                  split at ha2
                  · rename_i hvty
                    simp only [Option.some.injEq] at ha ha2 hb2 hb hcs h
                    subst ha ha2 hb2
                    subst hb
                    subst hcs
                    exact ⟨nm, v, hty, hnm, hnty, hv, hvty, by simpa using h.symm⟩
                  · cases ha2
                · cases hb
            · cases ha
          · cases hcs
      · cases h
    · cases h
  · rintro ⟨nm, v, hty, hnm, hnty, hv, hvty, rfl⟩
    simp [hty, hnm, hnty, hv, hvty]

/-- The matches of the compiled query: one for every `variable_declarator` node
with an `identifier` in `name` and an `array` in `value`, binding the two. -/
theorem mem_queryMatches (root : Node) (m : QueryMatch) :
    m ∈ queryMatches compiledQuery root ↔
      ∃ d ∈ allNodes root, ∃ nm v, d.Type = "variable_declarator" ∧
        d.ChildByFieldName "name" = some nm ∧ nm.Type = "identifier" ∧
        d.ChildByFieldName "value" = some v ∧ v.Type = "array" ∧
        m.Captures = [{ Index := 0, Node := nm }, { Index := 1, Node := v }] := by
  unfold queryMatches
  rw [compiledQuery_eq]
  simp only [List.mem_filterMap, Option.map_eq_some']
  constructor
  · rintro ⟨d, hd, cs, hcs, rfl⟩
    obtain ⟨nm, v, h1, h2, h3, h4, h5, h6⟩ := (matchNode_compiled d cs).mp hcs
    exact ⟨d, hd, nm, v, h1, h2, h3, h4, h5, h6⟩
  · rintro ⟨d, hd, nm, v, h1, h2, h3, h4, h5, h6⟩
    refine ⟨d, hd, _, (matchNode_compiled d _).mpr ⟨nm, v, h1, h2, h3, h4, h5, rfl⟩, ?_⟩
    cases m
    simp only at h6
    rw [h6]

/-- C10 (name filter).  The query of lines 63-70 compiles to the pattern of a
variable declarator with an identifier name and an array initializer and to the
predicate that the name reads `ranks`.  With a cursor that yields the matches
of that query, a search that does not end in `ErrRanksNotFound` returns the
materialization of the array initializer of a declarator of the script whose
name reads `ranks`; every declarator with an identifier name and an array
initializer is a match; when its name reads otherwise the match keeps no
capture after predicate filtering and the loop goes on with the next match,
and when it reads `ranks` the loop returns the materialization of its array. -/
theorem name_filter (lib : Lib)
    (hcursor : ∀ root, lib.NextMatch root = queryMatches compiledQuery root) :
    (∀ scripts, searchScripts lib scripts = .err .ErrRanksNotFound ∨
      ∃ s ∈ scripts, ∃ root, lib.ParseCtx s = .ok root ∧ ∃ d ∈ allNodes root, ∃ nm v,
        d.Type = "variable_declarator" ∧ d.ChildByFieldName "name" = some nm ∧
        nm.Type = "identifier" ∧ d.ChildByFieldName "value" = some v ∧ v.Type = "array" ∧
        nm.Content s = "ranks" ∧
        searchScripts lib scripts = buildRanks lib (some v) s) ∧
      (∀ (root d nm v : Node) (source : String), d ∈ allNodes root →
        d.Type = "variable_declarator" → d.ChildByFieldName "name" = some nm →
        nm.Type = "identifier" → d.ChildByFieldName "value" = some v → v.Type = "array" →
        (∃ m ∈ lib.NextMatch root,
          m.Captures = [{ Index := 0, Node := nm }, { Index := 1, Node := v }]) ∧
        (nm.Content source ≠ "ranks" →
          (FilterPredicates
            { Captures := [{ Index := 0, Node := nm }, { Index := 1, Node := v }] }
            source).Captures = [] ∧
          ∀ rest, matchesLoop lib source
            ({ Captures := [{ Index := 0, Node := nm }, { Index := 1, Node := v }] } :: rest) =
            matchesLoop lib source rest) ∧
        (nm.Content source = "ranks" →
          ∀ rest, matchesLoop lib source
            ({ Captures := [{ Index := 0, Node := nm }, { Index := 1, Node := v }] } :: rest) =
            some (buildRanks lib (some v) source))) := by
  have hshape : ∀ root, ∀ m ∈ lib.NextMatch root,
      ∃ nm v, m.Captures = [{ Index := 0, Node := nm }, { Index := 1, Node := v }] := by
    intro root m hm
    rw [hcursor root] at hm
    obtain ⟨_, _, nm, v, _, _, _, _, _, hcap⟩ := (mem_queryMatches root m).mp hm
    exact ⟨nm, v, hcap⟩
  refine ⟨?_, ?_⟩
  · intro scripts
    induction scripts with
    | nil => exact Or.inl rfl
    | cons s rest ih =>
      cases hf : firstRanksCapture lib s with
      | none =>
        rw [searchScripts_cons_none lib s rest hf]
        rcases ih with h | ⟨t, ht, hrest⟩
        · exact Or.inl h
        · exact Or.inr ⟨t, List.mem_cons_of_mem _ ht, hrest⟩
      | some node =>
        obtain ⟨root, hp, m, hm, nm, hcap, hr⟩ := firstRanksCapture_named lib hshape s node hf
        rw [hcursor root] at hm
        obtain ⟨d, hd, nm', v', h1, h2, h3, h4, h5, hcap'⟩ := (mem_queryMatches root m).mp hm
        rw [hcap] at hcap'
        simp only [List.cons.injEq, QueryCapture.mk.injEq, true_and, and_true] at hcap'
        obtain ⟨hnm, hv⟩ := hcap'
        subst hnm hv
        exact Or.inr ⟨s, List.mem_cons_self _ _, root, hp, d, hd, nm, node, h1, h2, h3, h4, h5,
          hr, searchScripts_cons_some lib s rest node hf⟩
  · intro root d nm v source hd h1 h2 h3 h4 h5
    refine ⟨?_, ?_, ?_⟩
    · refine ⟨{ Captures := [{ Index := 0, Node := nm }, { Index := 1, Node := v }] }, ?_, rfl⟩
      rw [hcursor root]
      exact (mem_queryMatches root _).mpr ⟨d, hd, nm, v, h1, h2, h3, h4, h5, rfl⟩
    · intro hne
      have hcap := FilterPredicates_pattern nm v source
      rw [if_neg hne] at hcap
      refine ⟨hcap, fun rest => ?_⟩
      rw [matchesLoop, hcap]
      rfl
    · intro heq rest
      have hcap := FilterPredicates_pattern nm v source
      rw [if_pos heq] at hcap
      have h0 : CaptureNameForId 0 ≠ "var-value" := by
        rw [CaptureNameForId_zero]; decide
      have h1 : CaptureNameForId 1 = "var-value" := CaptureNameForId_one
      rw [matchesLoop, hcap]
      simp only [capturesLoop, h0, h1, if_false, if_true]
      cases buildRanks lib (some v) source <;> rfl

/-- Witness of C10: in `accentOtherScript` the array `é` is declared before
the array `ranks`, and in `otherScript` the array `other`; both searches
return the array of `ranks`. -/
theorem name_filter_witness :
    (searchScripts goLib [accentOtherScript, otherScript] = .err .ErrRanksNotFound ∨
      ∃ s ∈ [accentOtherScript, otherScript], ∃ root, goLib.ParseCtx s = .ok root ∧
        ∃ d ∈ allNodes root, ∃ nm v,
        d.Type = "variable_declarator" ∧ d.ChildByFieldName "name" = some nm ∧
        nm.Type = "identifier" ∧ d.ChildByFieldName "value" = some v ∧ v.Type = "array" ∧
        nm.Content s = "ranks" ∧
        searchScripts goLib [accentOtherScript, otherScript] = buildRanks goLib (some v) s) ∧
      queryMatches compiledQuery accentOtherTree =
        [{ Captures := [{ Index := 0, Node := leaf "identifier" 4 6 true (some "name") },
            { Index := 1, Node := digitArray 9 }] },
          { Captures := [{ Index := 0, Node := leaf "identifier" 17 22 true (some "name") },
            { Index := 1, Node := digitArray 25 }] }] ∧
      (leaf "identifier" 4 6 true (some "name")).Content accentOtherScript = "é" ∧
      (leaf "identifier" 17 22 true (some "name")).Content accentOtherScript = "ranks" ∧
      searchScripts goLib [accentOtherScript] = .val (.arr [.num ⟨0x4000000000000000⟩]) ∧
      searchScripts goLib [otherScript] = .val (.arr [.num ⟨0x4000000000000000⟩]) :=
  ⟨(name_filter goLib (fun _ => rfl)).1 [accentOtherScript, otherScript],
    by rfl, by rfl, by rfl, by rfl, by rfl⟩

/-! ### Keys that all materialize to the absent value -/

theorem writeAll_null (ws : List Value) (w0 : Value) :
    writeAll [(Value.null, w0)] (ws.map (fun w => (Value.null, w))) =
      [(Value.null, (ws.getLast?).getD w0)] := by
  induction ws generalizing w0 with
  | nil => rfl
  | cons w rest ih =>
    have hstep : writeAll [(Value.null, w0)] ((w :: rest).map (fun w => (Value.null, w))) =
        writeAll [(Value.null, w)] (rest.map (fun w => (Value.null, w))) := rfl
    rw [hstep, ih]
    cases rest with
    | nil => rfl
    | cons w' rest' =>
      cases hx : (w' :: rest').getLast? with
      | none => simp at hx
      | some x => simp [List.getLast?_cons_cons, hx]

theorem writeAll_null_nil (ws : List Value) (w : Value) (h : ws.getLast? = some w) :
    writeAll [] (ws.map (fun w => (Value.null, w))) = [(Value.null, w)] := by
  cases ws with
  | nil => simp at h
  | cons w1 rest =>
    have hstep : writeAll [] ((w1 :: rest).map (fun w => (Value.null, w))) =
        writeAll [(Value.null, w1)] (rest.map (fun w => (Value.null, w))) := rfl
    rw [hstep, writeAll_null]
    cases rest with
    | nil =>
      simp only [List.getLast?_singleton, Option.some.injEq] at h
      simp [h]
    | cons w2 rest' =>
      rw [List.getLast?_cons_cons] at h
      simp [h]

theorem forall₂_getLast? {α β : Type} (R : α → β → Prop) (cs : List α) (ws : List β)
    (h : List.Forall₂ R cs ws) (hne : cs ≠ []) :
    ∃ c w, cs.getLast? = some c ∧ ws.getLast? = some w ∧ R c w := by
  induction h with
  | nil => exact absurd rfl hne
  | @cons c w cs' ws' hr hrest ih =>
    cases hrest with
    | nil => exact ⟨c, w, by simp, by simp, hr⟩
    | @cons c2 w2 cs2 ws2 hr2 hrest2 =>
      obtain ⟨c', w', hc', hw', hR⟩ := ih (by simp)
      exact ⟨c', w', by rw [List.getLast?_cons_cons]; exact hc',
        by rw [List.getLast?_cons_cons]; exact hw', hR⟩

theorem forall₂_null_keys (lib : Lib) (source : String) (cs : List Node) (ws : List Value)
    (hkeys : ∀ c ∈ cs, ∃ kn, c.ChildByFieldName "key" = some kn ∧ kn.Type ≠ "array" ∧
      kn.Type ≠ "object" ∧ kn.Type ≠ "string" ∧ kn.Type ≠ "number")
    (hvals : List.Forall₂
      (fun c w => createObject lib (c.ChildByFieldName "value") source = .val w) cs ws) :
    List.Forall₂ (fun c kv =>
      (fun x => createObject lib x source) (c.ChildByFieldName "key") = .val kv.1 ∧
      (fun x => createObject lib x source) (c.ChildByFieldName "value") = .val kv.2 ∧
      kv.1.hashable = true) cs (ws.map (fun w => (Value.null, w))) := by
  induction hvals with
  | nil => exact List.Forall₂.nil
  | @cons c w cs' ws' hv _ ih =>
    obtain ⟨kn, hk, h1, h2, h3, h4⟩ := hkeys c (List.mem_cons_self _ _)
    refine List.Forall₂.cons ⟨?_, hv, rfl⟩ (ih (fun d hd => hkeys d (List.mem_cons_of_mem _ hd)))
    show createObject lib (c.ChildByFieldName "key") source = .val .null
    rw [hk]
    exact createObject_other lib kn source h1 h2 h3 h4

/-- C16 (unquoted keys collapse).  For an object node with at least one pair,
all of whose keys are nodes of a type other than `array`, `object`, `string`,
`number`, and whose values materialize to `ws` in order, the mapping has the
single entry keyed by the absent value, and its value is the last of `ws`, the
materialization of the last pair's value. -/
theorem unquoted_keys_collapse (lib : Lib) (n : Node) (source : String) (ws : List Value)
    (htype : n.Type = "object") (hne : n.namedChildren ≠ [])
    (hkeys : ∀ c ∈ n.namedChildren, ∃ kn, c.ChildByFieldName "key" = some kn ∧
      kn.Type ≠ "array" ∧ kn.Type ≠ "object" ∧ kn.Type ≠ "string" ∧ kn.Type ≠ "number")
    (hvals : List.Forall₂
      (fun c w => createObject lib (c.ChildByFieldName "value") source = .val w)
      n.namedChildren ws) :
    ∃ c w, n.namedChildren.getLast? = some c ∧ ws.getLast? = some w ∧
      createObject lib (c.ChildByFieldName "value") source = .val w ∧
      createObject lib (some n) source = .val (.obj [(.null, w)]) := by
  obtain ⟨c, w, hc, hw, hcw⟩ := forall₂_getLast? _ _ _ hvals hne
  refine ⟨c, w, hc, hw, hcw, ?_⟩
  rw [createObject_object lib n source htype,
    objectWrites_val (fun x => createObject lib x source) n.namedChildren _
      (forall₂_null_keys lib source n.namedChildren ws hkeys hvals)]
  simp only [writeAll_null_nil ws w hw]

/-- Witness of C16: the object `{name: "a", score: 1}`. -/
theorem unquoted_keys_collapse_witness :
    ∃ c w, unquotedObject.namedChildren.getLast? = some c ∧
      [Value.str "\"a\"", Value.num ⟨0x3FF0000000000000⟩].getLast? = some w ∧
      createObject sampleLib (c.ChildByFieldName "value") unquotedSource = .val w ∧
      createObject sampleLib (some unquotedObject) unquotedSource = .val (.obj [(.null, w)]) :=
  unquoted_keys_collapse sampleLib unquotedObject unquotedSource
    [.str "\"a\"", .num ⟨0x3FF0000000000000⟩] (by rfl)
    (by
      intro h
      have hlen := congrArg List.length h
      exact absurd hlen (by decide))
    (by
      intro c hc
      have hc' : c ∈ [Node.mk "pair" 1 10 true none
            [leaf "property_identifier" 1 5 true (some "key"), leaf ":" 5 6 false none,
              leaf "string" 7 10 true (some "value")],
          Node.mk "pair" 12 20 true none
            [leaf "property_identifier" 12 17 true (some "key"), leaf ":" 17 18 false none,
              leaf "number" 19 20 true (some "value")]] := hc
      simp only [List.mem_cons, List.mem_singleton, List.not_mem_nil, or_false] at hc'
      rcases hc' with rfl | rfl
      · exact ⟨leaf "property_identifier" 1 5 true (some "key"), by rfl,
          by decide, by decide, by decide, by decide⟩
      · exact ⟨leaf "property_identifier" 12 17 true (some "key"), by rfl,
          by decide, by decide, by decide, by decide⟩)
    (by
      show List.Forall₂ _ [_, _] _
      exact List.Forall₂.cons (by rfl) (List.Forall₂.cons (by rfl) List.Forall₂.nil))

/-! ### Keys Go cannot hash -/

theorem objectWrites_unhashable (f : Option Node → Res Value) (cs : List Node) (c : Node)
    (k : Value) (hc : c ∈ cs) (hkey : f (c.ChildByFieldName "key") = .val k)
    (hk : k.hashable = false) : ∀ kvs, objectWrites f cs ≠ .val kvs := by
  induction cs with
  | nil => cases hc
  | cons d rest ih =>
    intro kvs h
    rw [objectWrites] at h
    cases hkd : f (d.ChildByFieldName "key") with
    | val kd =>
      rw [hkd] at h
      dsimp only at h
      cases hvd : f (d.ChildByFieldName "value") with
      | val vd =>
        rw [hvd] at h
        dsimp only at h
        cases hh : kd.hashable with
        | false => rw [hh] at h; simp at h
        | true =>
          rw [hh] at h
          simp only [if_true] at h
          rcases List.mem_cons.mp hc with hcd | hcr
          · subst hcd
            rw [hkey] at hkd
            cases hkd
            rw [hk] at hh
            cases hh
          · cases hr : objectWrites f rest with
            | val kvs' => exact ih hcr kvs' hr
            | err e => rw [hr] at h; cases h
            | panicked => rw [hr] at h; cases h
            | outOfFuel => rw [hr] at h; cases h
      | err e => rw [hvd] at h; cases h
      | panicked => rw [hvd] at h; cases h
      | outOfFuel => rw [hvd] at h; cases h
    | err e => rw [hkd] at h; cases h
    | panicked => rw [hkd] at h; cases h
    | outOfFuel => rw [hkd] at h; cases h

theorem objectWrites_cons_unhashable (f : Option Node → Res Value) (c : Node)
    (post : List Node) (k w : Value) (hkey : f (c.ChildByFieldName "key") = .val k)
    (hval : f (c.ChildByFieldName "value") = .val w) (hk : k.hashable = false) :
    objectWrites f (c :: post) = .panicked := by
  rw [objectWrites, hkey, hval]
  simp [hk]

/-- The object literal `{[1]: 2}`: its key is a `computed_property_name` node,
which materializes to the absent value, so the mapping is the single entry of
the absent value to 2. -/
theorem computed_key_materializes :
    createObject goLib
        ((Node.mk "pair" 1 7 true none
          [.mk "computed_property_name" 1 4 true (some "key")
              [leaf "[" 1 2 false none, leaf "number" 2 3 true none, leaf "]" 3 4 false none],
            leaf ":" 4 5 false none,
            leaf "number" 6 7 true (some "value")]).ChildByFieldName "key") compositeSource =
        .val .null ∧
      createObject goLib (some compositeObject) compositeSource =
        .val (.obj [(.null, .num ⟨0x4000000000000000⟩)]) :=
  ⟨by rfl, by rfl⟩

/-- C14, at the failing input `var ranks = [{a}]`.  The named child of the
object is a shorthand property; the lookup of its `key` field yields no node,
`createObject` on that nil node panics, and so do the materialization of the
array and the whole search: the outcome is neither a value nor an error. -/
theorem shorthand_property_panics :
    (leaf "shorthand_property_identifier" 14 15 true none).ChildByFieldName "key" = none ∧
      createObject extraLib none crashScript = .panicked ∧
      createObject extraLib (some crashObject) crashScript = .panicked ∧
      buildRanks extraLib (some crashArray) crashScript = .panicked ∧
      firstRanksCapture extraLib crashScript = some crashArray ∧
      searchScripts extraLib [crashScript] = .panicked :=
  ⟨by rfl, by rfl, by rfl, by rfl, by rfl, by rfl⟩

/-! ### Number errors -/

theorem arrayLoop_err_at (f : Option Node → Res Value) (pre post : List Node) (c : Node)
    (e : GoError) (hpre : ∀ p ∈ pre, ∃ v, f (some p) = .val v) (hc : f (some c) = .err e)
    (a : List Value) : arrayLoop f (pre ++ c :: post) a = .err e := by
  induction pre generalizing a with
  | nil => simp only [List.nil_append, arrayLoop, hc]
  | cons p rest ih =>
    obtain ⟨v, hv⟩ := hpre p (List.mem_cons_self _ _)
    rw [List.cons_append, arrayLoop, hv]
    exact ih (fun q hq => hpre q (List.mem_cons_of_mem _ hq)) _

theorem firstNumberError_err (lib : Lib) (source : String) (n : Node) (e : GoError)
    (h : FirstNumberError lib source n e) : createObject lib (some n) source = .err e := by
  induction h with
  | number n cause htype hparse =>
    rw [createObject_some, if_neg (by rw [htype]; decide), if_neg (by rw [htype]; decide),
      if_neg (by rw [htype]; decide), if_pos htype, hparse]
  | element n c pre post e htype hch hpre _ ih =>
    rw [createObject_some, if_pos htype, hch]
    exact arrayLoop_err_at (fun x => createObject lib x source) pre post c e hpre ih []
  | key n c kn pre post kvs e htype hch hpre hkn _ ih =>
    rw [createObject_object lib n source htype, hch, objectWrites_append,
      objectWrites_val (fun x => createObject lib x source) pre kvs hpre]
    have hk : (fun x => createObject lib x source) (c.ChildByFieldName "key") = .err e := by
      show createObject lib (c.ChildByFieldName "key") source = .err e
      rw [hkn]; exact ih
    simp only [objectWrites, hk]
  | value n c vn pre post kvs k e htype hch hpre hkey hvn _ ih =>
    rw [createObject_object lib n source htype, hch, objectWrites_append,
      objectWrites_val (fun x => createObject lib x source) pre kvs hpre]
    have hk : (fun x => createObject lib x source) (c.ChildByFieldName "key") = .val k := hkey
    have hv : (fun x => createObject lib x source) (c.ChildByFieldName "value") = .err e := by
      show createObject lib (c.ChildByFieldName "value") source = .err e
      rw [hvn]; exact ih
    simp only [objectWrites, hk, hv]

/-- C15 (number errors are fatal and atomic).  When the array of the first
kept capture holds, at any depth, a number node whose text `ParseFloat`
refuses, reached with nothing failing before it, the materialization returns
the error of the first such node and no value, and the search returns that
error whatever matches and scripts come after, also when a later script would
materialize. -/
theorem number_errors_fatal (lib : Lib) (pre post : List String) (s : String) (node : Node)
    (e : GoError) (hpre : ∀ p ∈ pre, firstRanksCapture lib p = none)
    (hs : firstRanksCapture lib s = some node)
    (herr : FirstNumberError lib s node e) :
    createObject lib (some node) s = .err e ∧
      (∀ v, createObject lib (some node) s ≠ .val v) ∧
      (∃ num cause, e = .numError num cause) ∧
      searchScripts lib (pre ++ s :: post) = .err e := by
  have h := firstNumberError_err lib s node e herr
  refine ⟨h, ?_, ?_, ?_⟩
  · intro v hv
    rw [h] at hv
    cases hv
  · exact createObjectFuel_err lib s _ (some node) e h
  · rw [searchScripts_append_none lib pre _ hpre, searchScripts_cons_some lib s post node hs]
    exact h

/-- Witness of C15: `badNumberScript`, whose array holds `0x1F` as the value of
a pair of its second element, followed by a script that would materialize; and
`accentBadScript`, whose array holds `0x1F` after a string with a two-byte
character, with the libraries as modelled. -/
theorem number_errors_fatal_witness :
    (createObject extraLib (some badNumberArray) badNumberScript =
        .err (.numError "0x1F" .invalid) ∧
      (∀ v, createObject extraLib (some badNumberArray) badNumberScript ≠ .val v) ∧
      (∃ num cause, GoError.numError "0x1F" .invalid = .numError num cause) ∧
      searchScripts extraLib (["if (", plainScript] ++ badNumberScript :: [ranksScript]) =
        .err (.numError "0x1F" .invalid)) ∧
      (createObject goLib (some accentBadArray) accentBadScript =
        .err (.numError "0x1F" .invalid) ∧
      (∀ v, createObject goLib (some accentBadArray) accentBadScript ≠ .val v) ∧
      (∃ num cause, GoError.numError "0x1F" .invalid = .numError num cause) ∧
      searchScripts goLib ([plainScript] ++ accentBadScript :: [ranksScript]) =
        .err (.numError "0x1F" .invalid)) :=
  ⟨number_errors_fatal extraLib ["if (", plainScript] [ranksScript] badNumberScript
    badNumberArray (.numError "0x1F" .invalid)
    (by
      intro p hp
      simp only [List.mem_cons, List.mem_singleton, List.not_mem_nil, or_false] at hp
      rcases hp with rfl | rfl <;> rfl)
    (by rfl)
    (FirstNumberError.element badNumberArray badNumberObject
      [leaf "number" 13 14 true none] [leaf "number" 29 30 true none] _ (by rfl) (by rfl)
      (by
        intro p hp
        rw [List.mem_singleton] at hp
        subst hp
        exact ⟨.num ⟨0x3FF0000000000000⟩, by rfl⟩)
      (FirstNumberError.value badNumberObject badNumberPair
        (leaf "number" 22 26 true (some "value")) [] [] [] (.str "\"a\"") _ (by rfl) (by rfl)
        List.Forall₂.nil (by rfl) (by rfl)
        (FirstNumberError.number (leaf "number" 22 26 true (some "value")) .invalid
          (by rfl) (by rfl)))),
    number_errors_fatal goLib [plainScript] [ranksScript] accentBadScript
      accentBadArray (.numError "0x1F" .invalid)
      (by
        intro p hp
        rw [List.mem_singleton] at hp
        subst hp
        rfl)
      (by rfl)
      (FirstNumberError.element accentBadArray (leaf "number" 19 23 true none)
        [leaf "string" 13 17 true none] [leaf "number" 25 26 true none] _ (by rfl) (by rfl)
        (by
          intro p hp
          rw [List.mem_singleton] at hp
          subst hp
          exact ⟨.str "\"é\"", by rfl⟩)
        (FirstNumberError.number (leaf "number" 19 23 true none) .invalid
          (by rfl) (by rfl)))⟩

/-! ### The shape of the result -/

theorem searchScripts_val_inv (lib : Lib) (scripts : List String) (r : Value)
    (h : searchScripts lib scripts = .val r) :
    ∃ s ∈ scripts, ∃ node, firstRanksCapture lib s = some node ∧
      buildRanks lib (some node) s = .val r := by
  induction scripts with
  | nil => simp [searchScripts] at h
  | cons s rest ih =>
    cases hf : firstRanksCapture lib s with
    | none =>
      rw [searchScripts_cons_none lib s rest hf] at h
      obtain ⟨t, ht, node, hnode, hres⟩ := ih h
      exact ⟨t, List.mem_cons_of_mem _ ht, node, hnode, hres⟩
    | some node =>
      rw [searchScripts_cons_some lib s rest node hf] at h
      exact ⟨s, List.mem_cons_self _ _, node, hf, h⟩

theorem arrayLoop_val_inv (f : Option Node → Res Value) (cs : List Node) (a : List Value)
    (r : Value) (h : arrayLoop f cs a = .val r) :
    ∃ vs, r = .arr (a ++ vs) ∧ List.Forall₂ (fun c v => f (some c) = .val v) cs vs := by
  induction cs generalizing a with
  | nil =>
    simp only [arrayLoop, Res.val.injEq] at h
    exact ⟨[], by rw [← h, List.append_nil], List.Forall₂.nil⟩
  | cons c rest ih =>
    rw [arrayLoop] at h
    cases hc : f (some c) with
    | val v =>
      rw [hc] at h
      obtain ⟨vs, hr, hvs⟩ := ih _ h
      exact ⟨v :: vs, by rw [hr, List.append_assoc, List.singleton_append],
        List.Forall₂.cons hc hvs⟩
    | err e => rw [hc] at h; cases h
    | panicked => rw [hc] at h; cases h
    | outOfFuel => rw [hc] at h; cases h

theorem createObject_array_inv (lib : Lib) (n : Node) (source : String) (r : Value)
    (htype : n.Type = "array") (h : createObject lib (some n) source = .val r) :
    ∃ vs, r = .arr vs ∧
      List.Forall₂ (fun c v => createObject lib (some c) source = .val v) n.namedChildren vs := by
  rw [createObject_some, if_pos htype] at h
  obtain ⟨vs, hr, hvs⟩ := arrayLoop_val_inv _ _ _ _ h
  exact ⟨vs, by simpa using hr, hvs⟩

/-- A materialized value is an Object exactly when the node is an `object`. -/
theorem createObject_obj_iff (lib : Lib) (c : Node) (source : String) (v : Value)
    (h : createObject lib (some c) source = .val v) :
    (∃ m, v = .obj m) ↔ c.Type = "object" := by
  by_cases ha : c.Type = "array"
  · obtain ⟨vs, hr, _⟩ := createObject_array_inv lib c source v ha h
    constructor
    · rintro ⟨m, hm⟩
      rw [hm] at hr
      cases hr
    · intro ho
      rw [ha] at ho
      exact absurd ho (by decide)
  · by_cases ho : c.Type = "object"
    · rw [createObject_object lib c source ho] at h
      refine ⟨fun _ => ho, fun _ => ?_⟩
      cases hw : objectWrites (fun x => createObject lib x source) c.namedChildren with
      | val kvs =>
        rw [hw] at h
        simp only [Res.val.injEq] at h
        exact ⟨_, h.symm⟩
      | err e => rw [hw] at h; cases h
      | panicked => rw [hw] at h; cases h
      | outOfFuel => rw [hw] at h; cases h
    · rw [createObject_some, if_neg ha, if_neg ho] at h
      refine ⟨?_, fun hobj => absurd hobj ho⟩
      rintro ⟨m, hm⟩
      subst hm
      split at h
      · cases h
      · split at h
        · split at h
          · cases h
          · cases h
        · cases h

mutual
theorem patternMatches_array :
    ∀ (n : Node), ∀ m ∈ patternMatches n,
      ∃ nm v, m.Captures = [{ Index := 0, Node := nm }, { Index := 1, Node := v }] ∧
        v.Type = "array"
  | .mk type s e named field cs, m, hm => by
    rw [patternMatches] at hm
    rcases List.mem_append.mp hm with hm | hm
    · split at hm
      · split at hm
        · rename_i hcond
          rw [List.mem_singleton] at hm
          exact ⟨_, _, by rw [hm], hcond.2.2⟩
        · cases hm
      · cases hm
    · exact patternMatchesList_array cs m hm
theorem patternMatchesList_array :
    ∀ (cs : List Node), ∀ m ∈ patternMatchesList cs,
      ∃ nm v, m.Captures = [{ Index := 0, Node := nm }, { Index := 1, Node := v }] ∧
        v.Type = "array"
  | [], m, hm => by rw [patternMatchesList] at hm; cases hm
  | c :: cs, m, hm => by
    rw [patternMatchesList] at hm
    rcases List.mem_append.mp hm with hm | hm
    · exact patternMatches_array c m hm
    · exact patternMatchesList_array cs m hm
end

/-- With a cursor that binds `array` nodes to `var-value`, the node of the
first kept capture is an `array`. -/
theorem firstRanksCapture_array (lib : Lib)
    (hshape : ∀ root, ∀ m ∈ lib.NextMatch root,
      ∃ nm v, m.Captures = [{ Index := 0, Node := nm }, { Index := 1, Node := v }] ∧
        v.Type = "array")
    (s : String) (node : Node) (h : firstRanksCapture lib s = some node) :
    node.Type = "array" := by
  obtain ⟨root, _, m, hm, nm, hcap, _⟩ := firstRanksCapture_named lib
    (fun root m hm => by
      obtain ⟨nm, v, hc, _⟩ := hshape root m hm
      exact ⟨nm, v, hc⟩) s node h
  obtain ⟨nm', v', hcap', hty⟩ := hshape root m hm
  rw [hcap] at hcap'
  simp only [List.cons.injEq, QueryCapture.mk.injEq, true_and, and_true] at hcap'
  rw [hcap'.2]
  exact hty

theorem CollectElimStats_val_inv (lib : Lib) (r : Value) (h : CollectElimStats lib = .val r) :
    ∃ scripts, searchScripts lib scripts = .val r := by
  unfold CollectElimStats at h
  split at h
  · cases h
  · split at h
    · cases h
    · split at h
      · cases h
      · split at h
        · cases h
        · split at h
          · cases h
          · exact ⟨_, h⟩

/-- C11, as amended.  With a cursor that binds `array` nodes to `var-value`,
whenever the search, or the whole operation, succeeds, the returned value is an
Array with one element per named child of the matched array literal, the i-th
element being the materialization of the i-th child; an element is an Object
exactly when its child is an `object` node.  For the spec's example the result
is an Array of two Objects with two entries each. -/
theorem result_is_array (lib : Lib)
    (hshape : ∀ root, ∀ m ∈ lib.NextMatch root,
      ∃ nm v, m.Captures = [{ Index := 0, Node := nm }, { Index := 1, Node := v }] ∧
        v.Type = "array") :
    (∀ scripts r, searchScripts lib scripts = .val r →
      ∃ s ∈ scripts, ∃ node vs, firstRanksCapture lib s = some node ∧ node.Type = "array" ∧
        r = .arr vs ∧ vs.length = node.NamedChildCount ∧
        ∀ (i : Nat) (c : Node), node.NamedChild i = some c →
          ∃ v, vs[i]? = some v ∧ createObject lib (some c) s = .val v ∧
            ((∃ m, v = .obj m) ↔ c.Type = "object")) ∧
      (∀ r, CollectElimStats lib = .val r → ∃ vs, r = .arr vs) ∧
      searchScripts extraLib [exampleScript] =
        .val (.arr
          [.obj [(.str "\"name\"", .str "\"a\""), (.str "\"score\"", .num ⟨0x3FF0000000000000⟩)],
           .obj [(.str "\"name\"", .str "\"b\""),
             (.str "\"score\"", .num ⟨0x4000000000000000⟩)]]) := by
  have hsearch : ∀ scripts r, searchScripts lib scripts = .val r →
      ∃ s ∈ scripts, ∃ node vs, firstRanksCapture lib s = some node ∧ node.Type = "array" ∧
        r = .arr vs ∧ vs.length = node.NamedChildCount ∧
        ∀ (i : Nat) (c : Node), node.NamedChild i = some c →
          ∃ v, vs[i]? = some v ∧ createObject lib (some c) s = .val v ∧
            ((∃ m, v = .obj m) ↔ c.Type = "object") := by
    intro scripts r h
    obtain ⟨s, hs, node, hnode, hres⟩ := searchScripts_val_inv lib scripts r h
    have hty := firstRanksCapture_array lib hshape s node hnode
    obtain ⟨vs, hr, hvs⟩ := createObject_array_inv lib node s r hty hres
    refine ⟨s, hs, node, vs, hnode, hty, hr, hvs.length_eq.symm, ?_⟩
    intro i c hc
    obtain ⟨v, hv, hcv⟩ := forall₂_getElem? _ _ _ hvs i c hc
    exact ⟨v, hv, hcv, createObject_obj_iff lib c s v hcv⟩
  refine ⟨hsearch, ?_, by rfl⟩
  intro r h
  obtain ⟨scripts, hs⟩ := CollectElimStats_val_inv lib r h
  obtain ⟨_, _, _, vs, _, _, hr, _⟩ := hsearch scripts r hs
  exact ⟨vs, hr⟩

/-- Witness of C11 as amended: the whole operation on the page `ranksDoc`. -/
theorem result_is_array_witness :
    CollectElimStats extraLib = .val (.arr [.num ⟨0x4000000000000000⟩]) ∧
      ∃ vs, Value.arr [.num ⟨0x4000000000000000⟩] = .arr vs :=
  ⟨by rfl,
    (result_is_array extraLib (fun root m hm => patternMatches_array root m hm)).2.1
      (.arr [.num ⟨0x4000000000000000⟩]) (by rfl)⟩

/-- Counterexample to C11 as stated: for the script `var ranks = [2]` the whole
operation succeeds with an Array whose element is a Number, not an Object. -/
theorem result_shape_counterexample :
    CollectElimStats extraLib = .val (.arr [.num ⟨0x4000000000000000⟩]) ∧
      searchScripts sampleLib [ranksScript] = .val (.arr [.num ⟨0x4000000000000000⟩]) ∧
      ¬ ∀ v ∈ [Value.num ⟨0x4000000000000000⟩], ∃ m, v = Value.obj m := by
  refine ⟨by rfl, by rfl, ?_⟩
  intro h
  obtain ⟨m, hm⟩ := h _ (List.mem_singleton.mpr rfl)
  cases hm

/-! ### Literals -/

end Collector
